/-
Verification of the schema parser and REST handler helpers of an in-memory
entity store (the `@mswjs/data`-style library in this repository).

The development shallowly embeds:
  * `parseModelDeclaration` (src/unnamed/part_000) — parses a model schema
    plus optional explicit initial values into a primary key, a property map
    and a relation map;
  * `getResponseStatusByErrorType`, `getFilters` and the GET-collection
    handler's pagination option construction
    (src/src/model/generateRestHandlers.ts);
  * `removeInternalProperties` / `isInternalEntity`
    (src/src/model/generateRestHandlers.ts, second unit).

JavaScript dynamic values are modelled by the inductive `JSValue`; `undefined`
(a missing key) is modelled by `Option`; a thrown exception is modelled by
`Except` (or by `none` for the projector, which can throw a `TypeError`).
-/
import Mathlib

namespace MswData

/-- A JavaScript runtime value, restricted to the shapes the library
manipulates: strings, numbers, booleans, `Date` instances, `null`,
plain objects (ordered key/value fields, unique keys in real JS) and
arrays. `undefined` is represented externally by `Option JSValue`. -/
inductive JSValue where
  | vStr (s : String)
  | vNum (n : Int)
  | vBool (b : Bool)
  | vDate (t : Int)
  | vNull
  | vObj (fields : List (String × JSValue))
  | vArr (elems : List JSValue)

/-- JavaScript truthiness of a `JSValue`.  `""`, `0`, `false` and `null` are
falsy; every object, array and `Date` instance is truthy. -/
def truthy : JSValue → Bool
  | .vStr s => !(s == "")
  | .vNum n => !(n == 0)
  | .vBool b => b
  | .vDate _ => true
  | .vNull => false
  | .vObj _ => true
  | .vArr _ => true

/-- The check of `parseModelDeclaration` lines 56-61:
`typeof v === 'string' || 'number' || 'boolean' || v?.constructor.name === 'Date'`. -/
def isPlainScalar : JSValue → Bool
  | .vStr _ => true
  | .vNum _ => true
  | .vBool _ => true
  | .vDate _ => true
  | _ => false

/-- JavaScript member access `v[k]`, as used on related-entity references
(`entityRef[relationPrimarykey]`).  On a plain object it looks the key up;
for the other shapes the accesses performed by the library yield `undefined`
(`null` would throw a `TypeError`; the theorems that rely on this function
restrict the referenced values to objects). -/
def getField : JSValue → String → Option JSValue
  | .vObj fields, k => fields.lookup k
  | _, _ => none

/-- JavaScript object assignment `obj[key] = v` on an assoc-list model of an
object: replace the binding if the key is present, otherwise append it. -/
def setEntry : List (String × α) → String → α → List (String × α)
  | [], key, v => [(key, v)]
  | kv :: rest, key, v =>
      if kv.1 == key then (key, v) :: rest else kv :: setEntry rest key v

/-- `RelationKind` from the glossary: `OneOf` or `ManyOf`. -/
inductive RelationKind where
  | OneOf
  | ManyOf
deriving DecidableEq

/-- One entry of a `ModelDeclaration`: the `valueGetter` of
`parseModelDeclaration`.  It is either the primary-key descriptor
(an object with `isPrimaryKey` and a `getValue` generator), a plain
zero-argument value-getter function (modelled by the value it returns),
or a relation definition (`{ kind, modelName, unique }`). -/
inductive ValueGetter where
  | primaryKey (getValue : JSValue)
  | valueFn (value : JSValue)
  | relation (kind : RelationKind) (modelName : String) (unique : Bool)

/-- A model schema: property name to descriptor, in declaration order. -/
def ModelDeclaration := List (String × ValueGetter)

/-- The dictionary of all model schemas. -/
def Dictionary := List (String × ModelDeclaration)

/-- A reference marker `{ __type, __primaryKey, __nodeId }` produced by the
relation resolver.  `primaryKey` and `nodeId` are `Option`s because the
source reads them through a non-null assertion that can in fact yield
`undefined`. -/
structure RelationRef where
  type : String
  primaryKey : Option String
  nodeId : Option JSValue

/-- A parsed relation value `{ kind, modelName, unique, refs }`. -/
structure Relation where
  kind : RelationKind
  modelName : String
  unique : Bool
  refs : List RelationRef

/-- The result record of `parseModelDeclaration`. -/
structure ParsedModelDeclaration where
  primaryKey : Option String
  properties : List (String × JSValue)
  relations : List (String × Relation)

/-- The failures `parseModelDeclaration` can raise (as typed stand-ins for
the `Error`s thrown at lines 44-47 and 137-139 of the source). -/
inductive ParseError where
  | MultiplePrimaryKeys
  | RelationWithoutValue
deriving DecidableEq

/-- Modelled from the spec: `src/utils/invariant` is not included under
`src/`.  Section 4.2 step 1 of the spec — "fail if a primary key was already
assigned earlier in this parse (MultiplePrimaryKeys)" — requires the call
`invariant(!!acc.primaryKey, message)` to raise exactly when its condition
holds, so `invariant` raises on a true condition. -/
def invariant (condition : Bool) (err : ParseError) : Except ParseError Unit :=
  if condition then .error err else .ok ()

/-- Whether a descriptor is flagged as the primary key
(`'isPrimaryKey' in valueGetter`). -/
def isPrimaryKeyGetter : ValueGetter → Bool
  | .primaryKey _ => true
  | _ => false

/-- Modelled from the spec: `src/utils/findPrimaryKey` is not included under
`src/`.  Section 4.1: "given a model schema, returns the name of the field
whose descriptor is flagged primary key".  The argument is optional because
the source applies it to an arbitrary dictionary lookup
(`dictionary[relationDefinition.modelName]`), which may be `undefined`. -/
def findPrimaryKey (declaration : Option ModelDeclaration) : Option String :=
  declaration.bind fun d =>
    (d.find? fun kv => isPrimaryKeyGetter kv.2).map fun kv => kv.1

/-- `exactValue || valueGetter.getValue()` (line 52): JavaScript `||`
returns its left operand when truthy, otherwise its right operand. -/
def jsOr (exactValue : Option JSValue) (fallback : JSValue) : JSValue :=
  match exactValue with
  | some v => if truthy v then v else fallback
  | none => fallback

/-- The reference marker built for one related entity (lines 93-97 and
120-124): `{ __type: modelName, __primaryKey: relationPrimarykey,
__nodeId: entityRef[relationPrimarykey] }`. -/
def relationRefFor (dictionary : Dictionary) (modelName : String)
    (entityRef : JSValue) : RelationRef :=
  let relationPrimarykey := findPrimaryKey (dictionary.lookup modelName)
  { type := modelName
    primaryKey := relationPrimarykey
    nodeId := relationPrimarykey.bind fun pk => getField entityRef pk }

/-- One step of the `Object.entries(declaration).reduce` of
`parseModelDeclaration` (lines 39-151), for the field `key` with descriptor
`valueGetter` and explicit initial value `exactValue`
(`initialValues?.[key]`).  The source dispatches on the runtime shape of
`valueGetter` (`'isPrimaryKey' in`, `'kind' in`, callable) and of
`exactValue`; the three descriptor shapes are disjoint so the dispatch is a
match on the descriptor with the source's value tests inside each arm:
  * primary key (lines 43-54): fail via `invariant` if a primary key was
    already assigned, else record the key and store
    `exactValue || getValue()`;
  * plain scalar explicit value (lines 56-69): store it verbatim;
  * truthy explicit value on a relation (lines 75-129): `ManyOf` + array
    and `OneOf` + non-array (necessarily a plain object here, every other
    shape being scalar, falsy, or an array) build reference markers; any
    other shape falls through to a plain property (lines 131-133);
  * relation with a falsy non-scalar (i.e. `null`) or missing value
    (lines 136-140): throw;
  * otherwise (lines 142-150): store the value getter's result. -/
def parseField (dictionary : Dictionary) (acc : ParsedModelDeclaration)
    (key : String) (valueGetter : ValueGetter) (exactValue : Option JSValue) :
    Except ParseError ParsedModelDeclaration :=
  match valueGetter with
  | .primaryKey getValue =>
      match invariant acc.primaryKey.isSome ParseError.MultiplePrimaryKeys with
      | .error e => .error e
      | .ok _ =>
          .ok { acc with
            primaryKey := some key
            properties := setEntry acc.properties key (jsOr exactValue getValue) }
  | .valueFn value =>
      match exactValue with
      | some v =>
          if isPlainScalar v || truthy v then
            .ok { acc with properties := setEntry acc.properties key v }
          else
            .ok { acc with properties := setEntry acc.properties key value }
      | none => .ok { acc with properties := setEntry acc.properties key value }
  | .relation kind modelName unique =>
      match exactValue with
      | some v =>
          if isPlainScalar v then
            .ok { acc with properties := setEntry acc.properties key v }
          else if truthy v then
            match kind, v with
            | RelationKind.ManyOf, .vArr elems =>
                let rel : Relation :=
                  { kind := RelationKind.ManyOf, modelName := modelName,
                    unique := unique,
                    refs := elems.map (relationRefFor dictionary modelName) }
                .ok { acc with relations := setEntry acc.relations key rel }
            | RelationKind.OneOf, .vObj fields =>
                let rel : Relation :=
                  { kind := RelationKind.OneOf, modelName := modelName,
                    unique := unique,
                    refs := [relationRefFor dictionary modelName (.vObj fields)] }
                .ok { acc with relations := setEntry acc.relations key rel }
            | _, _ =>
                .ok { acc with properties := setEntry acc.properties key v }
          else .error ParseError.RelationWithoutValue
      | none => .error ParseError.RelationWithoutValue

/-- The `reduce` loop of `parseModelDeclaration`, threading the accumulator
through the declared fields in declaration order; a thrown error aborts the
whole parse. -/
def parseFields (dictionary : Dictionary)
    (initialValues : List (String × JSValue)) :
    List (String × ValueGetter) → ParsedModelDeclaration →
    Except ParseError ParsedModelDeclaration
  | [], acc => .ok acc
  | (key, valueGetter) :: rest, acc =>
      match parseField dictionary acc key valueGetter
          (initialValues.lookup key) with
      | .ok acc' => parseFields dictionary initialValues rest acc'
      | .error e => .error e

/-- `parseModelDeclaration(dictionary, modelName, declaration,
initialValues)` (lines 23-159 of src/unnamed/part_000).  An absent
`initialValues` argument behaves like the empty map. -/
def parseModelDeclaration (dictionary : Dictionary) (modelName : String)
    (declaration : ModelDeclaration)
    (initialValues : List (String × JSValue)) :
    Except ParseError ParsedModelDeclaration :=
  parseFields dictionary initialValues declaration
    { primaryKey := none, properties := [], relations := [] }

/-! ### REST handler helpers (src/src/model/generateRestHandlers.ts) -/

/-- `enum HTTPErrorType { BadRequest }` (lines 15-17). -/
inductive HTTPErrorType where
  | BadRequest
deriving DecidableEq

/-- Modelled from the spec: `src/errors/OperationError` is not included
under `src/`.  Per the section-7 taxonomy, the store's own typed failures
are MultiplePrimaryKeys, RelationWithoutValue, DuplicatePrimaryKey and
EntityNotFound, while BadRequest "is raised by the external
query-translation boundary, not the evaluator" and therefore belongs to
`HTTPErrorType`, not to `OperationErrorType`. -/
inductive OperationErrorType where
  | MultiplePrimaryKeys
  | RelationWithoutValue
  | DuplicatePrimaryKey
  | EntityNotFound
deriving DecidableEq

/-- The `type` carried by an error reaching `withErrors` /
`getResponseStatusByErrorType`: either an `OperationError`'s type or an
`HTTPError`'s type.  The source merges the two enums into one lookup object
(`const ErrorType = { ...HTTPErrorType, ...OperationErrorType }`, line 19);
since the two enums share no member name, the merge is this disjoint sum. -/
inductive ErrorValue where
  | operation (t : OperationErrorType)
  | http (t : HTTPErrorType)
deriving DecidableEq

/-- `getResponseStatusByErrorType` (lines 43-56): the switch on
`error.type`. -/
def getResponseStatusByErrorType : ErrorValue → Nat
  | .operation OperationErrorType.EntityNotFound => 404
  | .operation OperationErrorType.DuplicatePrimaryKey => 409
  | .http HTTPErrorType.BadRequest => 400
  | _ => 500

/-- `{ equals: value }`, the comparator object `getFilters` builds for each
query parameter. -/
structure QueryComparator where
  equals : String
deriving DecidableEq

/-- `const paginationKeys = ['cursor', 'skip', 'take']` (line 86). -/
def paginationKeys : List String := ["cursor", "skip", "take"]

/-- The member names every plain object inherits from `Object.prototype`
(the ECMAScript core members plus the Annex B accessors).  Each of them
holds a function or an object, hence a truthy value. -/
def objectPrototypeKeys : List String :=
  ["constructor", "hasOwnProperty", "isPrototypeOf", "propertyIsEnumerable",
   "toLocaleString", "toString", "valueOf", "__proto__",
   "__defineGetter__", "__defineSetter__", "__lookupGetter__",
   "__lookupSetter__"]

/-- Truthiness of the JavaScript member access `declaration[key]` (line 90).
A model declaration is a plain object, so the access consults its own
properties — every declared descriptor is a truthy object or function —
and then the prototype chain: for a key naming an `Object.prototype`
member the access yields that (truthy) function or object even though the
property is not declared in the schema.  Any other key yields `undefined`
(falsy). -/
def declaredPropertyTruthy (declaration : ModelDeclaration)
    (key : String) : Bool :=
  (declaration.lookup key).isSome || key ∈ objectPrototypeKeys

/-- The `searchParams.forEach` loop of `getFilters` (lines 88-100) over the
remaining `(key, value)` parameter pairs, accumulating the filters object.
A thrown `HTTPError` aborts the loop. -/
def getFiltersLoop (declaration : ModelDeclaration) :
    List (String × String) → List (String × QueryComparator) →
    Except HTTPErrorType (List (String × QueryComparator))
  | [], filters => .ok filters
  | (key, value) :: rest, filters =>
      if key ∈ paginationKeys then getFiltersLoop declaration rest filters
      else if declaredPropertyTruthy declaration key then
        getFiltersLoop declaration rest
          (setEntry filters key { equals := value })
      else .error HTTPErrorType.BadRequest

/-- `getFilters(modelName, declaration, searchParams)` (lines 81-102),
with the query string modelled as the ordered list of its `(key, value)`
pairs. -/
def getFilters (modelName : String) (declaration : ModelDeclaration)
    (searchParams : List (String × String)) :
    Except HTTPErrorType (List (String × QueryComparator)) :=
  getFiltersLoop declaration searchParams []

/-- An ASCII whitespace character, as skipped by JavaScript `parseInt`. -/
def isSpaceChar (c : Char) : Bool :=
  c == ' ' || c == '\t' || c == '\n' || c == '\r'

/-- The longest leading run of decimal digits, or `none` if there is none
(JavaScript `parseInt` returns `NaN` then). -/
def leadingDigits (cs : List Char) : Option Nat :=
  let ds := cs.takeWhile Char.isDigit
  if ds.isEmpty then none
  else some (ds.foldl (fun a c => a * 10 + (c.toNat - 48)) 0)

/-- JavaScript `parseInt(s, 10)`: skip leading whitespace, read an optional
sign and then the longest run of decimal digits; `none` models `NaN`. -/
def parseInt (s : String) : Option Int :=
  match s.toList.dropWhile isSpaceChar with
  | '-' :: rest => (leadingDigits rest).map fun n => -(n : Int)
  | '+' :: rest => (leadingDigits rest).map fun n => (n : Int)
  | rest => (leadingDigits rest).map fun n => (n : Int)

/-- Truthiness of the handler's `take` variable
(`rawTake == null ? rawTake : parseInt(rawTake, 10)`): `null` and `NaN`
(and `0`) are falsy, so `take && !isNaN(take)` holds exactly for a parsed
non-zero number. -/
def takeTruthy : Option (Option Int) → Bool
  | some (some n) => !(n == 0)
  | _ => false

/-- Truthiness of a nullable string (the handler's `cursor` variable):
`null` and the empty string are falsy. -/
def strTruthy : Option String → Bool
  | some s => !(s == "")
  | none => false

/-- The options object passed to `model.findMany` by the GET-collection
handler: `{ where: filters }`, optionally extended with `take`/`skip`
and/or `take`/`cursor`. -/
structure FindManyOptions where
  whereFilters : List (String × QueryComparator)
  take : Option Int := none
  skip : Option Int := none
  cursor : Option String := none
deriving DecidableEq

/-- The GET-collection handler of `generateRestHandlers` (lines 118-142):
reads `cursor`, `skip` and `take` from the query string (`URLSearchParams
.get` returns the first occurrence or `null`), builds the where-filters via
`getFilters` (propagating its `HTTPError`), then:
`skip = parseInt(rawSkip ?? '0', 10)`,
`take = rawTake == null ? rawTake : parseInt(rawTake, 10)`, and the two
`Object.assign` extensions guarded by `take && !isNaN(take) && !isNaN(skip)`
and `take && !isNaN(take) && cursor`. -/
def listHandlerOptions (modelName : String) (declaration : ModelDeclaration)
    (searchParams : List (String × String)) :
    Except HTTPErrorType FindManyOptions :=
  let cursor := searchParams.lookup "cursor"
  let rawSkip := searchParams.lookup "skip"
  let rawTake := searchParams.lookup "take"
  match getFilters modelName declaration searchParams with
  | .error e => .error e
  | .ok filters =>
      let skip : Option Int := parseInt (rawSkip.getD "0")
      let take : Option (Option Int) := rawTake.map parseInt
      let options : FindManyOptions := { whereFilters := filters }
      let options :=
        if takeTruthy take && skip.isSome then
          { options with take := take.join, skip := skip }
        else options
      let options :=
        if takeTruthy take && strTruthy cursor then
          { options with take := take.join, cursor := cursor }
        else options
      .ok options

/-! ### The external-view projector (`removeInternalProperties`) -/

/-- `isInternalEntity` (lines 222-224 of the second unit):
`typeof value === 'object' && '__type' in value`.  Objects, arrays, `Date`s
and `null` all have `typeof 'object'` in JavaScript, but applying `in` to
`null` throws a `TypeError`; `none` models that thrown error. -/
def isInternalEntity : JSValue → Option Bool
  | .vNull => none
  | .vObj fields => some (fields.any fun kv => kv.1 == "__type")
  | _ => some false

/-- `key.startsWith('__')`, written out on the character list of the key. -/
def startsWithDunder (s : String) : Bool :=
  match s.toList with
  | '_' :: '_' :: _ => true
  | _ => false

mutual

/-- `removeInternalProperties(entity)` (lines 229-251 of the second unit),
on the entity's ordered field list.  A key starting with `"__"` is dropped;
a value that is an internal entity (`isInternalEntity`) is recursively
stripped; an array value is rebuilt by `removeInternalFromArray`; every
other value is kept as-is.  `none` models the `TypeError` that
`isInternalEntity` throws on a `null` value. -/
def removeInternalProperties :
    List (String × JSValue) → Option (List (String × JSValue))
  | [] => some []
  | (key, value) :: rest =>
      if startsWithDunder key then removeInternalProperties rest
      else
        match value with
        | .vNull => none
        | .vObj fs =>
            if isInternalEntity (.vObj fs) = some true then
              match removeInternalProperties fs,
                  removeInternalProperties rest with
              | some fs', some rest' => some ((key, .vObj fs') :: rest')
              | _, _ => none
            else
              (removeInternalProperties rest).map
                fun rest' => (key, JSValue.vObj fs) :: rest'
        | .vArr es =>
            match removeInternalFromArray es,
                removeInternalProperties rest with
            | some es', some rest' => some ((key, .vArr es') :: rest')
            | _, _ => none
        | v =>
            (removeInternalProperties rest).map fun rest' => (key, v) :: rest'
termination_by l => sizeOf l

/-- The `value.reduce` of lines 240-245: rebuild an array, recursively
stripping the elements that are internal entities and keeping every other
element unchanged. -/
def removeInternalFromArray : List JSValue → Option (List JSValue)
  | [] => some []
  | e :: rest =>
      match e with
      | .vNull => none
      | .vObj fs =>
          if isInternalEntity (.vObj fs) = some true then
            match removeInternalProperties fs,
                removeInternalFromArray rest with
            | some fs', some rest' => some (.vObj fs' :: rest')
            | _, _ => none
          else
            (removeInternalFromArray rest).map
              fun rest' => JSValue.vObj fs :: rest'
      | e' =>
          (removeInternalFromArray rest).map fun rest' => e' :: rest'
termination_by l => sizeOf l

end

/-! ### Helper lemmas about `setEntry` and object lookups -/

theorem lookup_setEntry_self (l : List (String × α)) (key : String) (v : α) :
    (setEntry l key v).lookup key = some v := by
  induction l with
  | nil => simp [setEntry, List.lookup]
  | cons kv rest ih =>
      by_cases h : kv.1 = key
      · simp [setEntry, h, List.lookup]
      · have hb : (kv.1 == key) = false := beq_eq_false_iff_ne.mpr h
        have hb' : (key == kv.1) = false :=
          beq_eq_false_iff_ne.mpr (Ne.symm h)
        simp only [setEntry, hb, Bool.false_eq_true, if_false, List.lookup,
          hb']
        exact ih

theorem lookup_setEntry_ne (l : List (String × α)) (key : String) (v : α)
    (k : String) (h : k ≠ key) :
    (setEntry l key v).lookup k = l.lookup k := by
  have hkey : (k == key) = false := beq_eq_false_iff_ne.mpr h
  induction l with
  | nil => simp [setEntry, List.lookup, hkey]
  | cons kv rest ih =>
      by_cases hk : kv.1 = key
      · have : (k == kv.1) = false := by
          rw [hk]; exact hkey
        simp [setEntry, hk, List.lookup, hkey, this]
      · have hb : (kv.1 == key) = false := beq_eq_false_iff_ne.mpr hk
        simp only [setEntry, hb, Bool.false_eq_true, if_false, List.lookup]
        by_cases hkk : k = kv.1
        · simp [hkk]
        · have hb2 : (k == kv.1) = false := beq_eq_false_iff_ne.mpr hkk
          simp only [hb2]
          exact ih

/-! ### Helper lemmas about `parseField` -/

/-- A successful `parseField` step writes only at its own key: the
properties and relations lookups at every other key are unchanged. -/
theorem parseField_frame (dictionary : Dictionary)
    (acc acc' : ParsedModelDeclaration) (key : String)
    (valueGetter : ValueGetter) (exactValue : Option JSValue)
    (h : parseField dictionary acc key valueGetter exactValue = .ok acc')
    (k : String) (hk : k ≠ key) :
    acc'.properties.lookup k = acc.properties.lookup k ∧
      acc'.relations.lookup k = acc.relations.lookup k := by
  cases valueGetter with
  | primaryKey g =>
      cases hpk : acc.primaryKey.isSome with
      | true => simp [parseField, invariant, hpk] at h
      | false =>
          simp only [parseField, invariant, hpk, Bool.false_eq_true,
            if_false, Except.ok.injEq] at h
          subst h
          simp [lookup_setEntry_ne _ _ _ _ hk]
  | valueFn value =>
      cases exactValue with
      | none =>
          simp only [parseField, Except.ok.injEq] at h
          subst h
          simp [lookup_setEntry_ne _ _ _ _ hk]
      | some v =>
          simp only [parseField] at h
          split at h <;>
            (simp only [Except.ok.injEq] at h; subst h;
             simp [lookup_setEntry_ne _ _ _ _ hk])
  | relation kind tm u =>
      cases exactValue with
      | none => simp [parseField] at h
      | some v =>
          simp only [parseField] at h
          split at h
          · simp only [Except.ok.injEq] at h
            subst h
            simp [lookup_setEntry_ne _ _ _ _ hk]
          · split at h
            · split at h <;>
                (simp only [Except.ok.injEq] at h; subst h;
                 simp [lookup_setEntry_ne _ _ _ _ hk])
            · simp at h

/-- A successful step for a descriptor that is not primary-key-flagged
leaves the accumulated primary key unchanged. -/
theorem parseField_primaryKey_of_not_pk (dictionary : Dictionary)
    (acc acc' : ParsedModelDeclaration) (key : String)
    (valueGetter : ValueGetter) (exactValue : Option JSValue)
    (hpk : isPrimaryKeyGetter valueGetter = false)
    (h : parseField dictionary acc key valueGetter exactValue = .ok acc') :
    acc'.primaryKey = acc.primaryKey := by
  cases valueGetter with
  | primaryKey g => simp [isPrimaryKeyGetter] at hpk
  | valueFn value =>
      cases exactValue with
      | none =>
          simp only [parseField, Except.ok.injEq] at h
          subst h; rfl
      | some v =>
          simp only [parseField] at h
          split at h <;>
            (simp only [Except.ok.injEq] at h; subst h; rfl)
  | relation kind tm u =>
      cases exactValue with
      | none => simp [parseField] at h
      | some v =>
          simp only [parseField] at h
          split at h
          · simp only [Except.ok.injEq] at h
            subst h; rfl
          · split at h
            · split at h <;>
                (simp only [Except.ok.injEq] at h; subst h; rfl)
            · simp at h

/-- A successful primary-key step requires the accumulated primary key to be
unassigned, records the field's key as the primary key, and stores
`exactValue || getValue()` as the field's property. -/
theorem parseField_pk_ok (dictionary : Dictionary)
    (acc acc' : ParsedModelDeclaration) (key : String) (getValue : JSValue)
    (exactValue : Option JSValue)
    (h : parseField dictionary acc key (.primaryKey getValue) exactValue
        = .ok acc') :
    acc.primaryKey = none ∧
      acc' = { acc with
        primaryKey := some key
        properties := setEntry acc.properties key (jsOr exactValue getValue) } := by
  cases hpk : acc.primaryKey.isSome with
  | true => simp [parseField, invariant, hpk] at h
  | false =>
      simp only [parseField, invariant, hpk, Bool.false_eq_true, if_false,
        Except.ok.injEq] at h
      exact ⟨Option.not_isSome_iff_eq_none.mp (by simp [hpk]), h.symm⟩

/-- A primary-key step with the primary key already assigned fails with
`MultiplePrimaryKeys`. -/
theorem parseField_pk_dup (dictionary : Dictionary)
    (acc : ParsedModelDeclaration) (key : String) (getValue : JSValue)
    (exactValue : Option JSValue) (h : acc.primaryKey.isSome) :
    parseField dictionary acc key (.primaryKey getValue) exactValue
      = .error ParseError.MultiplePrimaryKeys := by
  simp [parseField, invariant, h]

/-- If the accumulated primary key is assigned, a successful step keeps it
assigned. -/
theorem parseField_isSome_mono (dictionary : Dictionary)
    (acc acc' : ParsedModelDeclaration) (key : String)
    (valueGetter : ValueGetter) (exactValue : Option JSValue)
    (h : parseField dictionary acc key valueGetter exactValue = .ok acc')
    (hs : acc.primaryKey.isSome) : acc'.primaryKey.isSome := by
  cases hvg : isPrimaryKeyGetter valueGetter with
  | false =>
      rw [parseField_primaryKey_of_not_pk dictionary acc acc' key valueGetter
        exactValue hvg h]
      exact hs
  | true =>
      cases valueGetter with
      | primaryKey g =>
          rw [parseField_pk_dup dictionary acc key g exactValue hs] at h
          simp at h
      | valueFn v => simp [isPrimaryKeyGetter] at hvg
      | relation kind tm u => simp [isPrimaryKeyGetter] at hvg

/-- Whether a declared field is a relation left without a usable explicit
value: the relation branch of `parseField` throws exactly when the supplied
value is missing or is the (falsy, non-scalar) `null`. -/
def relationMissingValue (initialValues : List (String × JSValue))
    (kv : String × ValueGetter) : Bool :=
  match kv.2, initialValues.lookup kv.1 with
  | .relation _ _ _, none => true
  | .relation _ _ _, some .vNull => true
  | _, _ => false

/-- How many fields of a declaration are flagged as primary key. -/
def primaryKeyCount (declaration : ModelDeclaration) : Nat :=
  (declaration.filter fun kv => isPrimaryKeyGetter kv.2).length

/-- A relation field whose explicit value is missing or `null` fails with
`RelationWithoutValue`, whatever the accumulator. -/
theorem parseField_relation_missing (dictionary : Dictionary)
    (acc : ParsedModelDeclaration) (key : String) (kind : RelationKind)
    (tm : String) (u : Bool) (exactValue : Option JSValue)
    (h : exactValue = none ∨ exactValue = some JSValue.vNull) :
    parseField dictionary acc key (.relation kind tm u) exactValue
      = .error ParseError.RelationWithoutValue := by
  rcases h with h | h <;> subst h <;>
    simp [parseField, isPlainScalar, truthy]

/-- A relation field whose explicit value is present and is not `null`
succeeds, leaves the primary key and — unless the value is shape-matched —
the relations untouched. -/
theorem parseField_relation_ok (dictionary : Dictionary)
    (acc : ParsedModelDeclaration) (key : String) (kind : RelationKind)
    (tm : String) (u : Bool) (v : JSValue) (h : v ≠ JSValue.vNull) :
    ∃ acc', parseField dictionary acc key (.relation kind tm u) (some v)
      = .ok acc' := by
  cases v with
  | vNull => exact absurd rfl h
  | vStr s => exact ⟨_, rfl⟩
  | vNum n => exact ⟨_, rfl⟩
  | vBool b => exact ⟨_, rfl⟩
  | vDate t => exact ⟨_, rfl⟩
  | vObj fields => cases kind <;> exact ⟨_, rfl⟩
  | vArr elems => cases kind <;> exact ⟨_, rfl⟩

/-- A plain value-getter field always succeeds. -/
theorem parseField_valueFn_ok (dictionary : Dictionary)
    (acc : ParsedModelDeclaration) (key : String) (value : JSValue)
    (exactValue : Option JSValue) :
    ∃ acc', parseField dictionary acc key (.valueFn value) exactValue
      = .ok acc' := by
  cases exactValue with
  | none => exact ⟨_, rfl⟩
  | some v =>
      simp only [parseField]
      split
      · exact ⟨_, rfl⟩
      · exact ⟨_, rfl⟩

/-- Every error of a non-primary-key step is `RelationWithoutValue`, and it
occurs only on a relation field with a missing or `null` value. -/
theorem parseField_error_of_not_pk (dictionary : Dictionary)
    (acc : ParsedModelDeclaration) (key : String)
    (valueGetter : ValueGetter) (exactValue : Option JSValue) (e : ParseError)
    (hpk : isPrimaryKeyGetter valueGetter = false)
    (h : parseField dictionary acc key valueGetter exactValue = .error e) :
    e = ParseError.RelationWithoutValue ∧
      (exactValue = none ∨ exactValue = some JSValue.vNull) := by
  cases valueGetter with
  | primaryKey g => simp [isPrimaryKeyGetter] at hpk
  | valueFn value =>
      rcases parseField_valueFn_ok dictionary acc key value exactValue
        with ⟨acc', hok⟩
      rw [hok] at h; simp at h
  | relation kind tm u =>
      cases exactValue with
      | none =>
          simp only [parseField, Except.error.injEq] at h
          exact ⟨h.symm, Or.inl rfl⟩
      | some v =>
          cases v with
          | vNull =>
              have h2 : (Except.error ParseError.RelationWithoutValue :
                  Except ParseError ParsedModelDeclaration) = .error e := h
              injection h2 with h3
              exact ⟨h3.symm, Or.inr rfl⟩
          | vStr s =>
              rcases parseField_relation_ok dictionary acc key kind tm u
                (JSValue.vStr s) (by intro hc; cases hc) with ⟨acc', hok⟩
              rw [hok] at h; simp at h
          | vNum n =>
              rcases parseField_relation_ok dictionary acc key kind tm u
                (JSValue.vNum n) (by intro hc; cases hc) with ⟨acc', hok⟩
              rw [hok] at h; simp at h
          | vBool b =>
              rcases parseField_relation_ok dictionary acc key kind tm u
                (JSValue.vBool b) (by intro hc; cases hc) with ⟨acc', hok⟩
              rw [hok] at h; simp at h
          | vDate t =>
              rcases parseField_relation_ok dictionary acc key kind tm u
                (JSValue.vDate t) (by intro hc; cases hc) with ⟨acc', hok⟩
              rw [hok] at h; simp at h
          | vObj fields =>
              rcases parseField_relation_ok dictionary acc key kind tm u
                (JSValue.vObj fields) (by intro hc; cases hc) with ⟨acc', hok⟩
              rw [hok] at h; simp at h
          | vArr elems =>
              rcases parseField_relation_ok dictionary acc key kind tm u
                (JSValue.vArr elems) (by intro hc; cases hc) with ⟨acc', hok⟩
              rw [hok] at h; simp at h

/-! ### Helper lemmas about `parseFields` -/

/-- Parsing a concatenation parses the prefix and continues on its result. -/
theorem parseFields_append (dictionary : Dictionary)
    (initialValues : List (String × JSValue))
    (xs ys : List (String × ValueGetter)) (acc : ParsedModelDeclaration) :
    parseFields dictionary initialValues (xs ++ ys) acc
      = match parseFields dictionary initialValues xs acc with
        | .ok acc' => parseFields dictionary initialValues ys acc'
        | .error e => .error e := by
  induction xs generalizing acc with
  | nil => simp [parseFields]
  | cons kv rest ih =>
      obtain ⟨key, vg⟩ := kv
      simp only [List.cons_append, parseFields]
      cases parseField dictionary acc key vg (initialValues.lookup key) with
      | ok acc' => exact ih acc'
      | error e => rfl

/-- A successful run over fields none of which is named `k` leaves the
properties and relations lookups at `k` unchanged. -/
theorem parseFields_frame (dictionary : Dictionary)
    (initialValues : List (String × JSValue))
    (l : List (String × ValueGetter)) (acc acc' : ParsedModelDeclaration)
    (k : String) (hk : ∀ kv ∈ l, kv.1 ≠ k)
    (h : parseFields dictionary initialValues l acc = .ok acc') :
    acc'.properties.lookup k = acc.properties.lookup k ∧
      acc'.relations.lookup k = acc.relations.lookup k := by
  induction l generalizing acc with
  | nil =>
      simp only [parseFields, Except.ok.injEq] at h
      subst h; exact ⟨rfl, rfl⟩
  | cons kv rest ih =>
      obtain ⟨key, vg⟩ := kv
      simp only [parseFields] at h
      cases hstep : parseField dictionary acc key vg
          (initialValues.lookup key) with
      | error e => rw [hstep] at h; simp at h
      | ok acc₁ =>
          rw [hstep] at h
          have hne : k ≠ key :=
            fun hkk => (hk (key, vg) (List.mem_cons_self _ _)) (hkk ▸ rfl)
          have hframe := parseField_frame dictionary acc acc₁ key vg
            (initialValues.lookup key) hstep k hne
          have hrest := ih acc₁
            (fun kv hv => hk kv (List.mem_cons_of_mem _ hv)) h
          exact ⟨hrest.1.trans hframe.1, hrest.2.trans hframe.2⟩

/-- Once the primary key is assigned, a successful run keeps it assigned. -/
theorem parseFields_isSome_mono (dictionary : Dictionary)
    (initialValues : List (String × JSValue))
    (l : List (String × ValueGetter)) (acc acc' : ParsedModelDeclaration)
    (h : parseFields dictionary initialValues l acc = .ok acc')
    (hs : acc.primaryKey.isSome) : acc'.primaryKey.isSome := by
  induction l generalizing acc with
  | nil =>
      simp only [parseFields, Except.ok.injEq] at h
      subst h; exact hs
  | cons kv rest ih =>
      obtain ⟨key, vg⟩ := kv
      simp only [parseFields] at h
      cases hstep : parseField dictionary acc key vg
          (initialValues.lookup key) with
      | error e => rw [hstep] at h; simp at h
      | ok acc₁ =>
          rw [hstep] at h
          exact ih acc₁ h (parseField_isSome_mono dictionary acc acc₁ key vg
            (initialValues.lookup key) hstep hs)

/-- If every step of a run succeeded, every listed field's step succeeded
from some accumulator state. -/
theorem parseFields_member_ok (dictionary : Dictionary)
    (initialValues : List (String × JSValue))
    (l : List (String × ValueGetter)) (acc r : ParsedModelDeclaration)
    (h : parseFields dictionary initialValues l acc = .ok r)
    (kv : String × ValueGetter) (hmem : kv ∈ l) :
    ∃ a a', parseField dictionary a kv.1 kv.2
      (initialValues.lookup kv.1) = .ok a' := by
  induction l generalizing acc with
  | nil => cases hmem
  | cons kv₀ rest ih =>
      simp only [parseFields] at h
      cases hstep : parseField dictionary acc kv₀.1 kv₀.2
          (initialValues.lookup kv₀.1) with
      | error e =>
          obtain ⟨key₀, vg₀⟩ := kv₀
          rw [hstep] at h; simp at h
      | ok acc₁ =>
          obtain ⟨key₀, vg₀⟩ := kv₀
          rw [hstep] at h
          rcases List.mem_cons.mp hmem with heq | hmem'
          · subst heq; exact ⟨acc, acc₁, hstep⟩
          · exact ih acc₁ h hmem'

/-- Progress: a run over fields that are neither primary keys nor relations
missing their value succeeds and preserves the accumulated primary key. -/
theorem parseFields_progress (dictionary : Dictionary)
    (initialValues : List (String × JSValue))
    (l : List (String × ValueGetter)) (acc : ParsedModelDeclaration)
    (hpk : ∀ kv ∈ l, isPrimaryKeyGetter kv.2 = false)
    (hmiss : ∀ kv ∈ l, relationMissingValue initialValues kv = false) :
    ∃ acc', parseFields dictionary initialValues l acc = .ok acc' ∧
      acc'.primaryKey = acc.primaryKey := by
  induction l generalizing acc with
  | nil => exact ⟨acc, rfl, rfl⟩
  | cons kv rest ih =>
      obtain ⟨key, vg⟩ := kv
      have hpk₀ := hpk (key, vg) (List.mem_cons_self _ _)
      have hmiss₀ := hmiss (key, vg) (List.mem_cons_self _ _)
      have hstep : ∃ acc₁, parseField dictionary acc key vg
          (initialValues.lookup key) = .ok acc₁ := by
        cases vg with
        | primaryKey g => simp [isPrimaryKeyGetter] at hpk₀
        | valueFn value =>
            exact parseField_valueFn_ok dictionary acc key value _
        | relation kind tm u =>
            cases hl : initialValues.lookup key with
            | none =>
                rw [relationMissingValue, hl] at hmiss₀
                simp at hmiss₀
            | some v =>
                cases v with
                | vNull =>
                    rw [relationMissingValue, hl] at hmiss₀
                    simp at hmiss₀
                | vStr s => exact ⟨_, rfl⟩
                | vNum n => exact ⟨_, rfl⟩
                | vBool b => exact ⟨_, rfl⟩
                | vDate t => exact ⟨_, rfl⟩
                | vObj fields => cases kind <;> exact ⟨_, rfl⟩
                | vArr elems => cases kind <;> exact ⟨_, rfl⟩
      rcases hstep with ⟨acc₁, hstep⟩
      have hpres := parseField_primaryKey_of_not_pk dictionary acc acc₁ key vg
        (initialValues.lookup key) hpk₀ hstep
      rcases ih acc₁ (fun kv hv => hpk kv (List.mem_cons_of_mem _ hv))
          (fun kv hv => hmiss kv (List.mem_cons_of_mem _ hv))
        with ⟨acc₂, hrun, hpk₂⟩
      refine ⟨acc₂, ?_, hpk₂.trans hpres⟩
      simp only [parseFields, hstep]
      exact hrun

/-- A run over fields none of which is primary-key-flagged either throws
`RelationWithoutValue` or succeeds with the primary key unchanged. -/
theorem parseFields_no_pk (dictionary : Dictionary)
    (initialValues : List (String × JSValue))
    (l : List (String × ValueGetter)) (acc : ParsedModelDeclaration)
    (hpk : ∀ kv ∈ l, isPrimaryKeyGetter kv.2 = false) :
    parseFields dictionary initialValues l acc
        = .error ParseError.RelationWithoutValue ∨
      ∃ acc', parseFields dictionary initialValues l acc = .ok acc' ∧
        acc'.primaryKey = acc.primaryKey := by
  induction l generalizing acc with
  | nil => exact Or.inr ⟨acc, rfl, rfl⟩
  | cons kv rest ih =>
      obtain ⟨key, vg⟩ := kv
      have hpk₀ := hpk (key, vg) (List.mem_cons_self _ _)
      cases hstep : parseField dictionary acc key vg
          (initialValues.lookup key) with
      | error e =>
          have := parseField_error_of_not_pk dictionary acc key vg
            (initialValues.lookup key) e hpk₀ hstep
          left
          simp only [parseFields, hstep]
          rw [this.1]
      | ok acc₁ =>
          have hpres := parseField_primaryKey_of_not_pk dictionary acc acc₁
            key vg (initialValues.lookup key) hpk₀ hstep
          rcases ih acc₁ (fun kv hv => hpk kv (List.mem_cons_of_mem _ hv))
            with herr | ⟨acc₂, hrun, hpk₂⟩
          · left
            simp only [parseFields, hstep]
            exact herr
          · right
            refine ⟨acc₂, ?_, hpk₂.trans hpres⟩
            simp only [parseFields, hstep]
            exact hrun

theorem primaryKeyCount_cons (kv : String × ValueGetter)
    (l : List (String × ValueGetter)) :
    primaryKeyCount (kv :: l)
      = (if isPrimaryKeyGetter kv.2 then 1 else 0) + primaryKeyCount l := by
  simp only [primaryKeyCount, List.filter_cons]
  split
  · simp [Nat.add_comm]
  · simp

theorem primaryKeyCount_eq_zero (l : List (String × ValueGetter))
    (h : primaryKeyCount l = 0) :
    ∀ kv ∈ l, isPrimaryKeyGetter kv.2 = false := by
  intro kv hv
  by_contra hc
  have hmem : kv ∈ l.filter fun kv => isPrimaryKeyGetter kv.2 :=
    List.mem_filter.mpr ⟨hv, by simpa using hc⟩
  rw [primaryKeyCount, List.length_eq_zero] at h
  simp [h] at hmem

/-- A run over fields at most one of which is primary-key-flagged, started
with no primary key assigned, either throws `RelationWithoutValue` or
succeeds — it never throws `MultiplePrimaryKeys`. -/
theorem parseFields_le_one_pk (dictionary : Dictionary)
    (initialValues : List (String × JSValue))
    (l : List (String × ValueGetter)) (acc : ParsedModelDeclaration)
    (hacc : acc.primaryKey = none) (hpk : primaryKeyCount l ≤ 1) :
    parseFields dictionary initialValues l acc
        = .error ParseError.RelationWithoutValue ∨
      ∃ acc', parseFields dictionary initialValues l acc = .ok acc' := by
  induction l generalizing acc with
  | nil => exact Or.inr ⟨acc, rfl⟩
  | cons kv rest ih =>
      obtain ⟨key, vg⟩ := kv
      cases hvg : isPrimaryKeyGetter vg with
      | true =>
          cases vg with
          | valueFn v => simp [isPrimaryKeyGetter] at hvg
          | relation kind tm u => simp [isPrimaryKeyGetter] at hvg
          | primaryKey g =>
              have hstep : parseField dictionary acc key (.primaryKey g)
                  (initialValues.lookup key)
                  = .ok { acc with
                      primaryKey := some key
                      properties := setEntry acc.properties key
                        (jsOr (initialValues.lookup key) g) } := by
                simp [parseField, invariant, hacc]
              have hcount : primaryKeyCount rest = 0 := by
                have := primaryKeyCount_cons (key, .primaryKey g) rest
                rw [this] at hpk
                simp [isPrimaryKeyGetter] at hpk
                omega
              have hnopk := primaryKeyCount_eq_zero rest hcount
              rcases parseFields_no_pk dictionary initialValues rest _ hnopk
                with herr | ⟨acc₂, hrun, _⟩
              · left
                simp only [parseFields, hstep]
                exact herr
              · right
                refine ⟨acc₂, ?_⟩
                simp only [parseFields, hstep]
                exact hrun
      | false =>
          cases hstep : parseField dictionary acc key vg
              (initialValues.lookup key) with
          | error e =>
              have := parseField_error_of_not_pk dictionary acc key vg
                (initialValues.lookup key) e hvg hstep
              left
              simp only [parseFields, hstep]
              rw [← this.1]
          | ok acc₁ =>
              have hpres := parseField_primaryKey_of_not_pk dictionary acc
                acc₁ key vg (initialValues.lookup key) hvg hstep
              have hcount : primaryKeyCount rest ≤ 1 := by
                have := primaryKeyCount_cons (key, vg) rest
                rw [this, hvg] at hpk
                simpa using hpk
              rcases ih acc₁ (hpres.trans hacc) hcount
                with herr | ⟨acc₂, hrun⟩
              · left
                simp only [parseFields, hstep]
                exact herr
              · right
                refine ⟨acc₂, ?_⟩
                simp only [parseFields, hstep]
                exact hrun

/-- Main extraction lemma: in a successful parse of a declaration with
distinct field names, the result's properties/relations lookups at a
declared field's key are exactly those produced by that field's own step,
which ran from an accumulator holding nothing at that key. -/
theorem parse_lookup_of_mem (dictionary : Dictionary) (modelName : String)
    (declaration : List (String × ValueGetter))
    (initialValues : List (String × JSValue)) (k : String)
    (vg : ValueGetter) (r : ParsedModelDeclaration)
    (hnd : (declaration.map Prod.fst).Nodup)
    (hmem : (k, vg) ∈ declaration)
    (h : parseModelDeclaration dictionary modelName declaration initialValues
        = .ok r) :
    ∃ acc₁ acc₂,
      acc₁.properties.lookup k = none ∧
      acc₁.relations.lookup k = none ∧
      parseField dictionary acc₁ k vg (initialValues.lookup k) = .ok acc₂ ∧
      r.properties.lookup k = acc₂.properties.lookup k ∧
      r.relations.lookup k = acc₂.relations.lookup k := by
  rcases List.append_of_mem hmem with ⟨l₁, l₂, rfl⟩
  have hnd' := hnd
  rw [List.map_append, List.map_cons] at hnd'
  have hne₁ : ∀ kv ∈ l₁, kv.1 ≠ k := by
    intro kv hv hkk
    have hk₁ : k ∈ l₁.map Prod.fst := by
      exact List.mem_map.mpr ⟨kv, hv, hkk⟩
    have := (List.nodup_append.mp hnd').2.2
    exact this hk₁ (List.mem_cons_self _ _)
  have hne₂ : ∀ kv ∈ l₂, kv.1 ≠ k := by
    intro kv hv hkk
    have hcons := (List.nodup_append.mp hnd').2.1
    have : k ∈ l₂.map Prod.fst := List.mem_map.mpr ⟨kv, hv, hkk⟩
    exact (List.nodup_cons.mp hcons).1 this
  rw [parseModelDeclaration, parseFields_append] at h
  cases hrun₁ : parseFields dictionary initialValues l₁
      { primaryKey := none, properties := [], relations := [] } with
  | error e => rw [hrun₁] at h; simp at h
  | ok acc₁ =>
      rw [hrun₁] at h
      simp only [parseFields] at h
      cases hstep : parseField dictionary acc₁ k vg
          (initialValues.lookup k) with
      | error e => rw [hstep] at h; simp at h
      | ok acc₂ =>
          rw [hstep] at h
          have hinit := parseFields_frame dictionary initialValues l₁ _ acc₁
            k hne₁ hrun₁
          have hkeep := parseFields_frame dictionary initialValues l₂ acc₂ r
            k hne₂ h
          refine ⟨acc₁, acc₂, ?_, ?_, hstep, hkeep.1, hkeep.2⟩
          · rw [hinit.1]; rfl
          · rw [hinit.2]; rfl

/-! ### Claim theorems for the schema parser -/

/-- C4 (amended): in any successful parse, the primary-key field's stored
value equals the explicitly supplied initial value whenever a *truthy* one
is supplied; when the explicit value is absent — or falsy, such as `0`,
`false` or the empty string — the stored value is the value descriptor's
generated default (`exactValue || valueGetter.getValue()`). -/
theorem C4_primary_key_value (dictionary : Dictionary) (modelName : String)
    (declaration : List (String × ValueGetter))
    (initialValues : List (String × JSValue)) (k : String) (g : JSValue)
    (r : ParsedModelDeclaration)
    (hnd : (declaration.map Prod.fst).Nodup)
    (hmem : (k, ValueGetter.primaryKey g) ∈ declaration)
    (h : parseModelDeclaration dictionary modelName declaration initialValues
        = .ok r) :
    (∀ v, initialValues.lookup k = some v → truthy v = true →
        r.properties.lookup k = some v) ∧
    (∀ v, initialValues.lookup k = some v → truthy v = false →
        r.properties.lookup k = some g) ∧
    (initialValues.lookup k = none → r.properties.lookup k = some g) := by
  rcases parse_lookup_of_mem dictionary modelName declaration initialValues
      k _ r hnd hmem h with ⟨acc₁, acc₂, hp1, hr1, hstep, hp, hr⟩
  rcases parseField_pk_ok dictionary acc₁ acc₂ k g
      (initialValues.lookup k) hstep with ⟨hnone, rfl⟩
  rw [hp, lookup_setEntry_self]
  refine ⟨?_, ?_, ?_⟩
  · intro v hv ht; rw [hv]; simp [jsOr, ht]
  · intro v hv ht; rw [hv]; simp [jsOr, ht]
  · intro hv; rw [hv]; simp [jsOr]

/-- C5: a non-primary-key field whose explicit initial value is a plain
scalar (string, number, boolean or `Date` instance) has that value stored
verbatim as a property in any successful parse, and no relation is ever
recorded for it — even when the field is schema-declared as a relation. -/
theorem C5_scalar_explicit_value (dictionary : Dictionary)
    (modelName : String) (declaration : List (String × ValueGetter))
    (initialValues : List (String × JSValue)) (k : String)
    (vg : ValueGetter) (v : JSValue) (r : ParsedModelDeclaration)
    (hnd : (declaration.map Prod.fst).Nodup)
    (hmem : (k, vg) ∈ declaration)
    (hpk : isPrimaryKeyGetter vg = false)
    (hl : initialValues.lookup k = some v)
    (hs : isPlainScalar v = true)
    (h : parseModelDeclaration dictionary modelName declaration initialValues
        = .ok r) :
    r.properties.lookup k = some v ∧ r.relations.lookup k = none := by
  rcases parse_lookup_of_mem dictionary modelName declaration initialValues
      k vg r hnd hmem h with ⟨acc₁, acc₂, hp1, hr1, hstep, hp, hr⟩
  rw [hl] at hstep
  cases vg with
  | primaryKey g => simp [isPrimaryKeyGetter] at hpk
  | valueFn value =>
      simp only [parseField, hs, Bool.true_or, if_true,
        Except.ok.injEq] at hstep
      subst hstep
      rw [hp, hr, lookup_setEntry_self]
      exact ⟨rfl, hr1⟩
  | relation kind tm u =>
      simp only [parseField, hs, if_true, Except.ok.injEq] at hstep
      subst hstep
      rw [hp, hr, lookup_setEntry_self]
      exact ⟨rfl, hr1⟩

/-- C6: a `ManyOf` relation field supplied with an array of related
entities yields, in any successful parse, a recorded relation whose `refs`
list has exactly one reference marker per array element, in array order,
each carrying the target model name, the target model's primary-key field
and that element's value at that field; nothing is stored in the
properties for the field (no entity is embedded by value). -/
theorem C6_many_of_reference_markers (dictionary : Dictionary)
    (modelName : String) (declaration : List (String × ValueGetter))
    (initialValues : List (String × JSValue)) (k tm : String) (u : Bool)
    (elems : List JSValue) (pk : String) (r : ParsedModelDeclaration)
    (hnd : (declaration.map Prod.fst).Nodup)
    (hmem : (k, ValueGetter.relation RelationKind.ManyOf tm u) ∈ declaration)
    (hl : initialValues.lookup k = some (JSValue.vArr elems))
    (hfind : findPrimaryKey (dictionary.lookup tm) = some pk)
    (hobjs : ∀ e ∈ elems, ∃ fs, e = JSValue.vObj fs)
    (h : parseModelDeclaration dictionary modelName declaration initialValues
        = .ok r) :
    r.relations.lookup k = some
      { kind := RelationKind.ManyOf, modelName := tm, unique := u,
        refs := elems.map fun e =>
          { type := tm, primaryKey := some pk, nodeId := getField e pk } } ∧
    r.properties.lookup k = none := by
  rcases parse_lookup_of_mem dictionary modelName declaration initialValues
      k _ r hnd hmem h with ⟨acc₁, acc₂, hp1, hr1, hstep, hp, hr⟩
  rw [hl] at hstep
  have hacc₂ := Except.ok.inj hstep
  subst hacc₂
  rw [hp, hr]
  dsimp only
  rw [lookup_setEntry_self]
  constructor
  · have hfun : ∀ e, relationRefFor dictionary tm e =
        { type := tm, primaryKey := some pk, nodeId := getField e pk } := by
      intro e
      simp [relationRefFor, hfind, Option.bind]
    simp only [List.map_congr_left fun e _ => hfun e]
  · exact hp1

/-- C7 (amended): a relation-declared field whose explicit value mismatches
the relation kind in shape (`ManyOf` given a non-array, or `OneOf` given an
array) stores the supplied value unchanged as a plain property and records
no relation — *except* when the supplied value is `null`, in which case the
step (and hence the parse) fails with `RelationWithoutValue` instead. -/
theorem C7_shape_mismatch_plain_property (dictionary : Dictionary)
    (k tm : String) (kind : RelationKind) (u : Bool) (v : JSValue)
    (hshape : (kind = RelationKind.ManyOf ∧ ∀ es, v ≠ JSValue.vArr es) ∨
        (kind = RelationKind.OneOf ∧ ∃ es, v = JSValue.vArr es))
    (hnull : v ≠ JSValue.vNull) :
    (∀ acc, ∃ acc',
      parseField dictionary acc k (.relation kind tm u) (some v) = .ok acc' ∧
      acc'.properties.lookup k = some v ∧ acc'.relations = acc.relations) ∧
    (∀ modelName declaration initialValues r,
      ((declaration : List (String × ValueGetter)).map Prod.fst).Nodup →
      (k, ValueGetter.relation kind tm u) ∈ declaration →
      initialValues.lookup k = some v →
      parseModelDeclaration dictionary modelName declaration initialValues
          = .ok r →
      r.properties.lookup k = some v ∧ r.relations.lookup k = none) := by
  have hstep : ∀ acc : ParsedModelDeclaration,
      parseField dictionary acc k (.relation kind tm u) (some v)
        = .ok { acc with properties := setEntry acc.properties k v } := by
    intro acc
    rcases hshape with ⟨hk, hnarr⟩ | ⟨hk, es, hv⟩
    · subst hk
      cases v with
      | vNull => exact absurd rfl hnull
      | vStr s => rfl
      | vNum n => rfl
      | vBool b => rfl
      | vDate t => rfl
      | vObj fields => rfl
      | vArr elems => exact absurd rfl (hnarr elems)
    · subst hk; subst hv; rfl
  constructor
  · intro acc
    refine ⟨_, hstep acc, ?_, rfl⟩
    exact lookup_setEntry_self _ _ _
  · intro modelName declaration initialValues r hnd hmem hl h
    rcases parse_lookup_of_mem dictionary modelName declaration initialValues
        k _ r hnd hmem h with ⟨acc₁, acc₂, hp1, hr1, hstep', hp, hr⟩
    rw [hl, hstep acc₁] at hstep'
    injection hstep' with hstep'
    subst hstep'
    rw [hp, hr, lookup_setEntry_self]
    exact ⟨rfl, hr1⟩

/-- C1 (amended): (i) when two fields are flagged as primary key and no
relation-declared field before the second flag lacks a usable explicit
value, the parse fails with `MultiplePrimaryKeys`; (ii) with two flagged
fields the parse never succeeds at all (although an intervening relation
field without a value makes it fail with `RelationWithoutValue` instead);
(iii) with exactly one flagged field the parse never raises
`MultiplePrimaryKeys`, and whenever it returns a result it records that
field as the primary key. -/
theorem C1_primary_key_flags :
    (∀ (dictionary : Dictionary) (modelName : String)
        (initialValues : List (String × JSValue))
        (l₁ l₂ rest : List (String × ValueGetter)) (k₁ k₂ : String)
        (g₁ g₂ : JSValue),
      (∀ kv ∈ l₁ ++ l₂, isPrimaryKeyGetter kv.2 = false) →
      (∀ kv ∈ l₁ ++ l₂, relationMissingValue initialValues kv = false) →
      parseModelDeclaration dictionary modelName
          (l₁ ++ (k₁, ValueGetter.primaryKey g₁) ::
            (l₂ ++ (k₂, ValueGetter.primaryKey g₂) :: rest)) initialValues
        = .error ParseError.MultiplePrimaryKeys) ∧
    (∀ (dictionary : Dictionary) (modelName : String)
        (initialValues : List (String × JSValue))
        (l₁ l₂ rest : List (String × ValueGetter)) (k₁ k₂ : String)
        (g₁ g₂ : JSValue) (r : ParsedModelDeclaration),
      parseModelDeclaration dictionary modelName
          (l₁ ++ (k₁, ValueGetter.primaryKey g₁) ::
            (l₂ ++ (k₂, ValueGetter.primaryKey g₂) :: rest)) initialValues
        ≠ .ok r) ∧
    (∀ (dictionary : Dictionary) (modelName : String)
        (initialValues : List (String × JSValue))
        (l₁ l₂ : List (String × ValueGetter)) (k : String) (g : JSValue),
      (∀ kv ∈ l₁ ++ l₂, isPrimaryKeyGetter kv.2 = false) →
      parseModelDeclaration dictionary modelName
          (l₁ ++ (k, ValueGetter.primaryKey g) :: l₂) initialValues
        ≠ .error ParseError.MultiplePrimaryKeys ∧
      ∀ r, parseModelDeclaration dictionary modelName
          (l₁ ++ (k, ValueGetter.primaryKey g) :: l₂) initialValues
        = .ok r → r.primaryKey = some k) := by
  refine ⟨?_, ?_, ?_⟩
  · intro dictionary modelName initialValues l₁ l₂ rest k₁ k₂ g₁ g₂
      hpk hmiss
    have hpk₁ : ∀ kv ∈ l₁, isPrimaryKeyGetter kv.2 = false :=
      fun kv hv => hpk kv (List.mem_append_left _ hv)
    have hpk₂ : ∀ kv ∈ l₂, isPrimaryKeyGetter kv.2 = false :=
      fun kv hv => hpk kv (List.mem_append_right _ hv)
    have hmiss₁ : ∀ kv ∈ l₁, relationMissingValue initialValues kv = false :=
      fun kv hv => hmiss kv (List.mem_append_left _ hv)
    have hmiss₂ : ∀ kv ∈ l₂, relationMissingValue initialValues kv = false :=
      fun kv hv => hmiss kv (List.mem_append_right _ hv)
    rcases parseFields_progress dictionary initialValues l₁
        { primaryKey := none, properties := [], relations := [] }
        hpk₁ hmiss₁ with ⟨acc₁, hrun₁, hpkeq₁⟩
    have hstep₁ : parseField dictionary acc₁ k₁ (.primaryKey g₁)
        (initialValues.lookup k₁)
        = .ok { acc₁ with
            primaryKey := some k₁
            properties := setEntry acc₁.properties k₁
              (jsOr (initialValues.lookup k₁) g₁) } := by
      simp [parseField, invariant, hpkeq₁]
    rcases parseFields_progress dictionary initialValues l₂
        { acc₁ with
          primaryKey := some k₁
          properties := setEntry acc₁.properties k₁
            (jsOr (initialValues.lookup k₁) g₁) } hpk₂ hmiss₂
      with ⟨acc₂, hrun₂, hpkeq₂⟩
    have hdup : parseField dictionary acc₂ k₂ (.primaryKey g₂)
        (initialValues.lookup k₂)
        = .error ParseError.MultiplePrimaryKeys := by
      apply parseField_pk_dup
      rw [hpkeq₂]
      rfl
    rw [parseModelDeclaration, parseFields_append, hrun₁]
    simp only [parseFields, hstep₁]
    rw [parseFields_append, hrun₂]
    simp only [parseFields, hdup]
  · intro dictionary modelName initialValues l₁ l₂ rest k₁ k₂ g₁ g₂ r h
    rw [parseModelDeclaration, parseFields_append] at h
    cases hrun₁ : parseFields dictionary initialValues l₁
        { primaryKey := none, properties := [], relations := [] } with
    | error e => rw [hrun₁] at h; simp at h
    | ok acc₁ =>
        rw [hrun₁] at h
        simp only [parseFields] at h
        cases hstep₁ : parseField dictionary acc₁ k₁ (.primaryKey g₁)
            (initialValues.lookup k₁) with
        | error e => rw [hstep₁] at h; simp at h
        | ok acc₂ =>
            rw [hstep₁] at h
            dsimp only at h
            rw [parseFields_append] at h
            have hsome₂ : acc₂.primaryKey.isSome := by
              rcases parseField_pk_ok dictionary acc₁ acc₂ k₁ g₁
                  (initialValues.lookup k₁) hstep₁ with ⟨-, rfl⟩
              rfl
            cases hrun₂ : parseFields dictionary initialValues l₂ acc₂ with
            | error e => rw [hrun₂] at h; simp at h
            | ok acc₃ =>
                rw [hrun₂] at h
                have hsome₃ := parseFields_isSome_mono dictionary
                  initialValues l₂ acc₂ acc₃ hrun₂ hsome₂
                simp only [parseFields, parseField_pk_dup dictionary acc₃ k₂
                  g₂ (initialValues.lookup k₂) hsome₃] at h
                exact Except.noConfusion h
  · intro dictionary modelName initialValues l₁ l₂ k g hpk
    have hpk₁ : ∀ kv ∈ l₁, isPrimaryKeyGetter kv.2 = false :=
      fun kv hv => hpk kv (List.mem_append_left _ hv)
    have hpk₂ : ∀ kv ∈ l₂, isPrimaryKeyGetter kv.2 = false :=
      fun kv hv => hpk kv (List.mem_append_right _ hv)
    rw [parseModelDeclaration, parseFields_append]
    rcases parseFields_no_pk dictionary initialValues l₁
        { primaryKey := none, properties := [], relations := [] } hpk₁
      with herr₁ | ⟨acc₁, hrun₁, hpkeq₁⟩
    · rw [herr₁]
      exact ⟨by simp, by simp⟩
    · rw [hrun₁]
      have hstep : parseField dictionary acc₁ k (.primaryKey g)
          (initialValues.lookup k)
          = .ok { acc₁ with
              primaryKey := some k
              properties := setEntry acc₁.properties k
                (jsOr (initialValues.lookup k) g) } := by
        simp [parseField, invariant, hpkeq₁]
      simp only [parseFields, hstep]
      rcases parseFields_no_pk dictionary initialValues l₂
          { acc₁ with
            primaryKey := some k
            properties := setEntry acc₁.properties k
              (jsOr (initialValues.lookup k) g) } hpk₂
        with herr₂ | ⟨acc₂, hrun₂, hpkeq₂⟩
      · rw [herr₂]
        exact ⟨by simp, by simp⟩
      · rw [hrun₂]
        refine ⟨by simp, ?_⟩
        intro r hr
        injection hr with hr
        subst hr
        rw [hpkeq₂]

/-- C3 (amended): (i) when a relation-declared field has no explicit
initial value and at most one primary-key flag precedes it, the parse fails
with `RelationWithoutValue`; (ii) whenever any relation-declared field has
no explicit initial value the parse never succeeds — so a relation field is
never filled in from a value-descriptor default. -/
theorem C3_relation_without_value :
    (∀ (dictionary : Dictionary) (modelName : String)
        (initialValues : List (String × JSValue))
        (l₁ rest : List (String × ValueGetter)) (k tm : String)
        (kind : RelationKind) (u : Bool),
      initialValues.lookup k = none →
      primaryKeyCount l₁ ≤ 1 →
      parseModelDeclaration dictionary modelName
          (l₁ ++ (k, ValueGetter.relation kind tm u) :: rest) initialValues
        = .error ParseError.RelationWithoutValue) ∧
    (∀ (dictionary : Dictionary) (modelName : String)
        (declaration : List (String × ValueGetter))
        (initialValues : List (String × JSValue)) (k tm : String)
        (kind : RelationKind) (u : Bool) (r : ParsedModelDeclaration),
      (k, ValueGetter.relation kind tm u) ∈ declaration →
      initialValues.lookup k = none →
      parseModelDeclaration dictionary modelName declaration initialValues
        ≠ .ok r) := by
  constructor
  · intro dictionary modelName initialValues l₁ rest k tm kind u hmiss hcount
    rw [parseModelDeclaration, parseFields_append]
    rcases parseFields_le_one_pk dictionary initialValues l₁
        { primaryKey := none, properties := [], relations := [] } rfl hcount
      with herr | ⟨acc₁, hrun⟩
    · rw [herr]
    · rw [hrun]
      have hstep := parseField_relation_missing dictionary acc₁ k kind tm u
        (initialValues.lookup k) (Or.inl hmiss)
      simp only [parseFields, hstep]
  · intro dictionary modelName declaration initialValues k tm kind u r
      hmem hmiss h
    rcases parseFields_member_ok dictionary initialValues declaration _ r h
        (k, ValueGetter.relation kind tm u) hmem with ⟨a, a', hstep⟩
    rw [parseField_relation_missing dictionary a k kind tm u
      (initialValues.lookup k) (Or.inl hmiss)] at hstep
    exact Except.noConfusion hstep

/-- C1 counterexample: a schema with two primary-key flags in which a
valueless relation field sits before the second flag fails with
`RelationWithoutValue`, not `MultiplePrimaryKeys`. -/
theorem C1_two_flags_other_error :
    parseModelDeclaration [] "user"
        [("a", ValueGetter.primaryKey (JSValue.vStr "x")),
         ("r", ValueGetter.relation RelationKind.OneOf "other" false),
         ("b", ValueGetter.primaryKey (JSValue.vStr "y"))] []
      = .error ParseError.RelationWithoutValue ∧
    primaryKeyCount
        [("a", ValueGetter.primaryKey (JSValue.vStr "x")),
         ("r", ValueGetter.relation RelationKind.OneOf "other" false),
         ("b", ValueGetter.primaryKey (JSValue.vStr "y"))] = 2 ∧
    ParseError.RelationWithoutValue ≠ ParseError.MultiplePrimaryKeys :=
  ⟨rfl, rfl, by decide⟩

/-- C1 witness: with two adjacent primary-key flags the parse fails with
`MultiplePrimaryKeys`; with a single flag it does not. -/
theorem C1_primary_key_flags_witness :
    parseModelDeclaration [] "user"
        [("a", ValueGetter.primaryKey (JSValue.vStr "x")),
         ("b", ValueGetter.primaryKey (JSValue.vStr "y"))] []
      = .error ParseError.MultiplePrimaryKeys ∧
    parseModelDeclaration [] "user"
        [("id", ValueGetter.primaryKey (JSValue.vStr "x"))] []
      ≠ .error ParseError.MultiplePrimaryKeys := by
  constructor
  · exact C1_primary_key_flags.1 [] "user" [] [] [] [] "a" "b"
      (JSValue.vStr "x") (JSValue.vStr "y") (by simp) (by simp)
  · exact (C1_primary_key_flags.2.2 [] "user" [] [] [] "id"
      (JSValue.vStr "x") (by simp)).1

/-- C3 counterexample: a valueless relation field preceded by two
primary-key flags makes the parse fail with `MultiplePrimaryKeys`, not
`RelationWithoutValue`. -/
theorem C3_preempted_by_duplicate_flags :
    parseModelDeclaration [] "user"
        [("a", ValueGetter.primaryKey (JSValue.vStr "x")),
         ("b", ValueGetter.primaryKey (JSValue.vStr "y")),
         ("r", ValueGetter.relation RelationKind.OneOf "other" false)] []
      = .error ParseError.MultiplePrimaryKeys ∧
    ParseError.MultiplePrimaryKeys ≠ ParseError.RelationWithoutValue :=
  ⟨rfl, by decide⟩

/-- C3 witness: a valueless relation field after a single primary-key flag
fails with `RelationWithoutValue`, and such a parse never succeeds. -/
theorem C3_relation_without_value_witness :
    parseModelDeclaration [] "user"
        [("id", ValueGetter.primaryKey (JSValue.vStr "x")),
         ("r", ValueGetter.relation RelationKind.OneOf "other" false)] []
      = .error ParseError.RelationWithoutValue ∧
    ∀ r, parseModelDeclaration [] "user"
        [("id", ValueGetter.primaryKey (JSValue.vStr "x")),
         ("r", ValueGetter.relation RelationKind.OneOf "other" false)] []
      ≠ .ok r := by
  constructor
  · exact C3_relation_without_value.1 [] "user" []
      [("id", ValueGetter.primaryKey (JSValue.vStr "x"))] [] "r" "other"
      RelationKind.OneOf false rfl (by decide)
  · intro r
    exact C3_relation_without_value.2 [] "user"
      [("id", ValueGetter.primaryKey (JSValue.vStr "x")),
       ("r", ValueGetter.relation RelationKind.OneOf "other" false)] []
      "r" "other" RelationKind.OneOf false r (by simp) rfl

/-- C4 counterexample: an explicitly supplied falsy primary-key value
(`0`) is ignored and the generated default is stored instead. -/
theorem C4_falsy_explicit_value_ignored :
    parseModelDeclaration [] "user"
        [("id", ValueGetter.primaryKey (JSValue.vStr "generated"))]
        [("id", JSValue.vNum 0)]
      = .ok { primaryKey := some "id"
              properties := [("id", JSValue.vStr "generated")]
              relations := [] } ∧
    JSValue.vStr "generated" ≠ JSValue.vNum 0 :=
  ⟨rfl, fun h => JSValue.noConfusion h⟩

/-- C4 witness: a truthy explicit primary-key value is stored verbatim, a
falsy one is replaced by the generated default. -/
theorem C4_primary_key_value_witness :
    ({ primaryKey := some "id"
       properties := [("id", JSValue.vStr "abc")]
       relations := [] } : ParsedModelDeclaration).properties.lookup "id"
      = some (JSValue.vStr "abc") ∧
    ({ primaryKey := some "id"
       properties := [("id", JSValue.vStr "generated")]
       relations := [] } : ParsedModelDeclaration).properties.lookup "id"
      = some (JSValue.vStr "generated") := by
  constructor
  · exact (C4_primary_key_value [] "user"
      [("id", ValueGetter.primaryKey (JSValue.vStr "generated"))]
      [("id", JSValue.vStr "abc")] "id" (JSValue.vStr "generated") _
      (by decide) (by simp) rfl).1 (JSValue.vStr "abc") rfl rfl
  · exact (C4_primary_key_value [] "user"
      [("id", ValueGetter.primaryKey (JSValue.vStr "generated"))]
      [("id", JSValue.vNum 0)] "id" (JSValue.vStr "generated") _
      (by decide) (by simp) rfl).2.1 (JSValue.vNum 0) rfl rfl

/-- C5 witness: a scalar explicit value on a relation-declared field is
stored verbatim as a property and no relation is recorded. -/
theorem C5_scalar_explicit_value_witness :
    ({ primaryKey := none
       properties := [("friend", JSValue.vStr "plain")]
       relations := [] } : ParsedModelDeclaration).properties.lookup "friend"
      = some (JSValue.vStr "plain") ∧
    ({ primaryKey := none
       properties := [("friend", JSValue.vStr "plain")]
       relations := [] } : ParsedModelDeclaration).relations.lookup "friend"
      = none :=
  C5_scalar_explicit_value [] "post"
    [("friend", ValueGetter.relation RelationKind.OneOf "user" false)]
    [("friend", JSValue.vStr "plain")] "friend"
    (ValueGetter.relation RelationKind.OneOf "user" false)
    (JSValue.vStr "plain") _ (by decide) (by simp) rfl rfl rfl rfl

/-- C6 witness: a `ManyOf` relation given two related entities records two
reference markers, in order, carrying the target's primary-key values, and
stores nothing in the properties. -/
theorem C6_many_of_reference_markers_witness :
    ({ primaryKey := none
       properties := []
       relations := [("authors",
         { kind := RelationKind.ManyOf, modelName := "user", unique := false,
           refs := [{ type := "user", primaryKey := some "id",
                      nodeId := some (JSValue.vStr "u1") },
                    { type := "user", primaryKey := some "id",
                      nodeId := some (JSValue.vStr "u2") }] })] } :
      ParsedModelDeclaration).relations.lookup "authors"
      = some
        { kind := RelationKind.ManyOf, modelName := "user", unique := false,
          refs :=
            [JSValue.vObj [("id", JSValue.vStr "u1")],
             JSValue.vObj [("id", JSValue.vStr "u2")]].map fun e =>
              { type := "user", primaryKey := some "id",
                nodeId := getField e "id" } } ∧
    ({ primaryKey := none
       properties := []
       relations := [("authors",
         { kind := RelationKind.ManyOf, modelName := "user", unique := false,
           refs := [{ type := "user", primaryKey := some "id",
                      nodeId := some (JSValue.vStr "u1") },
                    { type := "user", primaryKey := some "id",
                      nodeId := some (JSValue.vStr "u2") }] })] } :
      ParsedModelDeclaration).properties.lookup "authors" = none :=
  C6_many_of_reference_markers
    [("user", [("id", ValueGetter.primaryKey (JSValue.vStr "g"))])] "post"
    [("authors", ValueGetter.relation RelationKind.ManyOf "user" false)]
    [("authors", JSValue.vArr
      [JSValue.vObj [("id", JSValue.vStr "u1")],
       JSValue.vObj [("id", JSValue.vStr "u2")]])]
    "authors" "user" false
    [JSValue.vObj [("id", JSValue.vStr "u1")],
     JSValue.vObj [("id", JSValue.vStr "u2")]] "id" _
    (by decide) (by simp) rfl rfl
    (by intro e he
        simp only [List.mem_cons, List.not_mem_nil, or_false] at he
        rcases he with rfl | rfl
        · exact ⟨_, rfl⟩
        · exact ⟨_, rfl⟩)
    rfl

/-- C7 counterexample: a `ManyOf` relation field explicitly supplied with
the non-array value `null` raises `RelationWithoutValue` instead of being
stored as a plain property. -/
theorem C7_null_mismatch_raises :
    parseModelDeclaration [] "user"
        [("friends", ValueGetter.relation RelationKind.ManyOf "user" false)]
        [("friends", JSValue.vNull)]
      = .error ParseError.RelationWithoutValue :=
  rfl

/-- C7 witness: a `ManyOf` relation field supplied with a (truthy,
non-array) plain object stores it unchanged as a property and records no
relation. -/
theorem C7_shape_mismatch_plain_property_witness :
    ({ primaryKey := none
       properties := [("friends", JSValue.vObj [("id", JSValue.vStr "u1")])]
       relations := [] } : ParsedModelDeclaration).properties.lookup "friends"
      = some (JSValue.vObj [("id", JSValue.vStr "u1")]) ∧
    ({ primaryKey := none
       properties := [("friends", JSValue.vObj [("id", JSValue.vStr "u1")])]
       relations := [] } : ParsedModelDeclaration).relations.lookup "friends"
      = none :=
  (C7_shape_mismatch_plain_property [] "friends" "user"
      RelationKind.ManyOf false (JSValue.vObj [("id", JSValue.vStr "u1")])
      (Or.inl ⟨rfl, fun es h => JSValue.noConfusion h⟩)
      (fun h => JSValue.noConfusion h)).2
    "post" [("friends", ValueGetter.relation RelationKind.ManyOf "user" false)]
    [("friends", JSValue.vObj [("id", JSValue.vStr "u1")])] _
    (by decide) (by simp) rfl rfl

/-! ### Claim theorems for the REST handler helpers -/

/-- C2: `getResponseStatusByErrorType` maps `EntityNotFound` to 404,
`DuplicatePrimaryKey` to 409, `BadRequest` to 400, and every other error
type to 500. -/
theorem C2_status_by_error_type :
    getResponseStatusByErrorType (.operation .EntityNotFound) = 404 ∧
    getResponseStatusByErrorType (.operation .DuplicatePrimaryKey) = 409 ∧
    getResponseStatusByErrorType (.http .BadRequest) = 400 ∧
    ∀ e : ErrorValue, e ≠ .operation .EntityNotFound →
      e ≠ .operation .DuplicatePrimaryKey → e ≠ .http .BadRequest →
      getResponseStatusByErrorType e = 500 := by
  refine ⟨rfl, rfl, rfl, ?_⟩
  intro e h1 h2 h3
  cases e with
  | http t => cases t; exact absurd rfl h3
  | operation t =>
      cases t with
      | EntityNotFound => exact absurd rfl h1
      | DuplicatePrimaryKey => exact absurd rfl h2
      | MultiplePrimaryKeys => rfl
      | RelationWithoutValue => rfl

/-- C2 witness: a store failure outside the three mapped types — here
`MultiplePrimaryKeys` — gets status 500. -/
theorem C2_status_by_error_type_witness :
    getResponseStatusByErrorType (.operation .MultiplePrimaryKeys) = 500 :=
  C2_status_by_error_type.2.2.2 (.operation .MultiplePrimaryKeys)
    (by decide) (by decide) (by decide)

theorem lookup_append (l₁ l₂ : List (String × α)) (k : String) :
    (l₁ ++ l₂).lookup k
      = match l₁.lookup k with
        | some v => some v
        | none => l₂.lookup k := by
  induction l₁ with
  | nil => simp [List.lookup]
  | cons kv rest ih =>
      by_cases h : k = kv.1
      · simp [List.lookup, h]
      · have hb : (k == kv.1) = false := beq_eq_false_iff_ne.mpr h
        simp only [List.cons_append, List.lookup, hb]
        exact ih

/-- `declaration[key]` is falsy exactly when the key is neither declared
nor an `Object.prototype` member. -/
theorem declaredPropertyTruthy_eq_false_iff (declaration : ModelDeclaration)
    (key : String) :
    declaredPropertyTruthy declaration key = false ↔
    declaration.lookup key = none ∧ key ∉ objectPrototypeKeys := by
  cases h : declaration.lookup key <;>
    simp [declaredPropertyTruthy, h]

/-- `declaration[key]` is truthy exactly when the key is declared or is an
`Object.prototype` member. -/
theorem declaredPropertyTruthy_eq_true_iff (declaration : ModelDeclaration)
    (key : String) :
    declaredPropertyTruthy declaration key = true ↔
    ((declaration.lookup key).isSome = true ∨ key ∈ objectPrototypeKeys) := by
  simp [declaredPropertyTruthy]

/-- Invariant of the `getFilters` loop: on success, the produced filters
bind a key to the `equals` comparator of its *last* occurrence among the
non-pagination parameters, and never bind a pagination key (beyond what the
starting accumulator held). -/
theorem getFiltersLoop_ok_lookup (declaration : ModelDeclaration)
    (ps : List (String × String)) (acc out : List (String × QueryComparator))
    (h : getFiltersLoop declaration ps acc = .ok out) (k : String) :
    out.lookup k
      = if k ∈ paginationKeys then acc.lookup k
        else match ps.reverse.lookup k with
          | some v => some { equals := v }
          | none => acc.lookup k := by
  induction ps generalizing acc with
  | nil =>
      simp only [getFiltersLoop, Except.ok.injEq] at h
      subst h
      split <;> simp [List.lookup]
  | cons kv rest ih =>
      obtain ⟨key, v⟩ := kv
      simp only [getFiltersLoop] at h
      by_cases hkey : key ∈ paginationKeys
      · rw [if_pos hkey] at h
        rw [ih acc h]
        rw [List.reverse_cons, lookup_append]
        by_cases hk : k ∈ paginationKeys
        · simp [hk]
        · have hne : k ≠ key := fun hkk => hk (hkk ▸ hkey)
          have hb : (k == key) = false := beq_eq_false_iff_ne.mpr hne
          simp only [if_neg hk]
          cases hrl : rest.reverse.lookup k <;>
            simp [List.lookup, hb]
      · rw [if_neg hkey] at h
        by_cases htr : declaredPropertyTruthy declaration key = true
        · rw [if_pos htr] at h
          rw [ih _ h]
          rw [List.reverse_cons, lookup_append]
          by_cases hk : k ∈ paginationKeys
          · have hne : k ≠ key := fun hkk => hkey (hkk ▸ hk)
            simp only [if_pos hk]
            exact lookup_setEntry_ne _ _ _ _ hne
          · simp only [if_neg hk]
            cases hrl : rest.reverse.lookup k with
            | some w => rfl
            | none =>
                by_cases hkk : k = key
                · subst hkk
                  simp [List.lookup, lookup_setEntry_self]
                · have hb : (k == key) = false := beq_eq_false_iff_ne.mpr hkk
                  simp [List.lookup, hb,
                    lookup_setEntry_ne acc key { equals := v } k hkk]
        · rw [if_neg htr] at h
          exact Except.noConfusion h

/-- The `getFilters` loop succeeds exactly when `declaration[key]` is
truthy for every non-pagination parameter. -/
theorem getFiltersLoop_ok_iff (declaration : ModelDeclaration)
    (ps : List (String × String)) (acc : List (String × QueryComparator)) :
    (∃ out, getFiltersLoop declaration ps acc = .ok out) ↔
    ∀ kv ∈ ps, kv.1 ∉ paginationKeys →
      declaredPropertyTruthy declaration kv.1 = true := by
  induction ps generalizing acc with
  | nil => simp [getFiltersLoop]
  | cons kv rest ih =>
      obtain ⟨key, v⟩ := kv
      simp only [getFiltersLoop]
      by_cases hkey : key ∈ paginationKeys
      · rw [if_pos hkey]
        rw [ih acc]
        constructor
        · intro hall kv hv hpag
          rcases List.mem_cons.mp hv with rfl | hv2
          · exact absurd hkey hpag
          · exact hall kv hv2 hpag
        · intro hall kv hv hpag
          exact hall kv (List.mem_cons_of_mem _ hv) hpag
      · rw [if_neg hkey]
        by_cases htr : declaredPropertyTruthy declaration key = true
        · rw [if_pos htr]
          rw [ih (setEntry acc key { equals := v })]
          constructor
          · intro hall kv hv hpag
            rcases List.mem_cons.mp hv with rfl | hv2
            · exact htr
            · exact hall kv hv2 hpag
          · intro hall kv hv hpag
            exact hall kv (List.mem_cons_of_mem _ hv) hpag
        · rw [if_neg htr]
          constructor
          · rintro ⟨out, hout⟩
            exact Except.noConfusion hout
          · intro hall
            exact absurd (hall (key, v) (List.mem_cons_self _ _) hkey) htr

/-- C8 (amended): `getFilters` (i) succeeds exactly when, for every
non-pagination parameter, the member access `declaration[key]` is truthy —
that is, the name is schema-declared *or* names an `Object.prototype`
member; so it raises `BadRequest` if and only if some non-pagination
parameter is neither declared nor such an inherited member; (ii) on
success the produced where-filters contain no `cursor`/`skip`/`take` key,
and bind every other parameter's name to an `equals` comparator holding
that parameter's (last) value. -/
theorem C8_get_filters (modelName : String) (declaration : ModelDeclaration)
    (searchParams : List (String × String)) :
    ((∃ filters, getFilters modelName declaration searchParams
        = .ok filters) ↔
      ∀ kv ∈ searchParams, kv.1 ∉ paginationKeys →
        ((declaration.lookup kv.1).isSome = true ∨
          kv.1 ∈ objectPrototypeKeys)) ∧
    (getFilters modelName declaration searchParams
        = .error HTTPErrorType.BadRequest ↔
      ∃ kv ∈ searchParams, kv.1 ∉ paginationKeys ∧
        declaration.lookup kv.1 = none ∧ kv.1 ∉ objectPrototypeKeys) ∧
    (∀ filters, getFilters modelName declaration searchParams = .ok filters →
      ∀ k, filters.lookup k
        = if k ∈ paginationKeys then none
          else (searchParams.reverse.lookup k).map
            fun v => { equals := v }) := by
  have hok_iff := getFiltersLoop_ok_iff declaration searchParams []
  refine ⟨?_, ?_, ?_⟩
  · exact Iff.trans hok_iff
      ⟨fun hall kv hv hpag =>
          (declaredPropertyTruthy_eq_true_iff declaration kv.1).mp
            (hall kv hv hpag),
        fun hall kv hv hpag =>
          (declaredPropertyTruthy_eq_true_iff declaration kv.1).mpr
            (hall kv hv hpag)⟩
  · constructor
    · intro herr
      by_contra hno
      push_neg at hno
      have hall : ∀ kv ∈ searchParams, kv.1 ∉ paginationKeys →
          declaredPropertyTruthy declaration kv.1 = true := by
        intro kv hv hpag
        cases htr : declaredPropertyTruthy declaration kv.1 with
        | true => rfl
        | false =>
            rcases (declaredPropertyTruthy_eq_false_iff declaration
              kv.1).mp htr with ⟨hnone, hproto⟩
            exact absurd (hno kv hv hpag hnone) hproto
      rcases hok_iff.mpr hall with ⟨out, hout⟩
      rw [getFilters] at herr
      rw [hout] at herr
      exact Except.noConfusion herr
    · rintro ⟨kv, hv, hpag, hnone, hproto⟩
      cases hres : getFilters modelName declaration searchParams with
      | error e => cases e; rfl
      | ok out =>
          have htr := hok_iff.mp ⟨out, hres⟩ kv hv hpag
          rcases (declaredPropertyTruthy_eq_false_iff declaration kv.1).mpr
            ⟨hnone, hproto⟩ ▸ htr with h
          exact Bool.noConfusion h
  · intro filters hok k
    have := getFiltersLoop_ok_lookup declaration searchParams [] filters
      hok k
    rw [this]
    by_cases hk : k ∈ paginationKeys
    · simp [hk, List.lookup]
    · simp only [if_neg hk]
      cases searchParams.reverse.lookup k <;> simp [List.lookup]

/-- C8 counterexample: the undeclared parameter name `constructor` is a
truthy member access on any plain-object declaration (inherited from
`Object.prototype`), so `getFilters` builds a filter for it instead of
raising `BadRequest`. -/
theorem C8_prototype_key_not_rejected :
    getFilters "user" [("firstName", ValueGetter.valueFn (JSValue.vStr "d"))]
        [("constructor", "1")]
      = .ok [("constructor", { equals := "1" })] ∧
    List.lookup "constructor"
        [("firstName", ValueGetter.valueFn (JSValue.vStr "d"))] = none ∧
    "constructor" ∉ paginationKeys :=
  ⟨rfl, rfl, by decide⟩

/-- C8 witness: a declared parameter becomes an `equals` filter and the
pagination key `take` is dropped; an undeclared, non-inherited parameter
raises `BadRequest`. -/
theorem C8_get_filters_witness :
    (([("firstName", { equals := "Alice" })] :
        List (String × QueryComparator)).lookup "firstName"
      = some { equals := "Alice" } ∧
      ([("firstName", { equals := "Alice" })] :
        List (String × QueryComparator)).lookup "take" = none) ∧
    getFilters "user" [("firstName", ValueGetter.valueFn (JSValue.vStr "d"))]
        [("oops", "1")]
      = .error HTTPErrorType.BadRequest := by
  constructor
  · have h3 := (C8_get_filters "user"
      [("firstName", ValueGetter.valueFn (JSValue.vStr "d"))]
      [("firstName", "Alice"), ("take", "10")]).2.2
      [("firstName", { equals := "Alice" })] rfl
    constructor
    · rw [h3 "firstName"]; rfl
    · rw [h3 "take"]; rfl
  · exact (C8_get_filters "user"
      [("firstName", ValueGetter.valueFn (JSValue.vStr "d"))]
      [("oops", "1")]).2.1.mpr
      ⟨("oops", "1"), List.mem_cons_self _ _, by decide, rfl, by decide⟩

/-- C10: in the GET-collection handler, pagination options reach
`findMany` only when `take` parses to a non-zero number: the where-filters
are always exactly `getFilters`' output; when `take` is absent, zero or
non-numeric no `take`/`skip`/`cursor` option is set; with a truthy `take`
and a numeric (or absent, defaulting to `0`) `skip`, `take` and `skip` are
forwarded; with a truthy `take` and a non-empty `cursor`, `take` and
`cursor` are forwarded as well. -/
theorem C10_pagination_forwarding (modelName : String)
    (declaration : ModelDeclaration)
    (searchParams : List (String × String)) (opts : FindManyOptions)
    (h : listHandlerOptions modelName declaration searchParams = .ok opts) :
    getFilters modelName declaration searchParams = .ok opts.whereFilters ∧
    (takeTruthy ((searchParams.lookup "take").map parseInt) = false →
      opts.take = none ∧ opts.skip = none ∧ opts.cursor = none) ∧
    (∀ n, (searchParams.lookup "take").map parseInt = some (some n) →
      n ≠ 0 →
      (parseInt ((searchParams.lookup "skip").getD "0")).isSome = true →
      opts.take = some n ∧
        opts.skip = parseInt ((searchParams.lookup "skip").getD "0")) ∧
    (∀ n c, (searchParams.lookup "take").map parseInt = some (some n) →
      n ≠ 0 → searchParams.lookup "cursor" = some c → c ≠ "" →
      opts.take = some n ∧ opts.cursor = some c) := by
  rw [listHandlerOptions] at h
  cases hgf : getFilters modelName declaration searchParams with
  | error e => rw [hgf] at h; exact Except.noConfusion h
  | ok filters =>
      rw [hgf] at h
      have h' := (Except.ok.inj h).symm
      subst h'
      refine ⟨?_, ?_, ?_, ?_⟩
      · by_cases h2 : (takeTruthy ((searchParams.lookup "take").map parseInt)
            && strTruthy (searchParams.lookup "cursor")) = true <;>
          by_cases h1 : (takeTruthy
              ((searchParams.lookup "take").map parseInt)
            && (parseInt ((searchParams.lookup "skip").getD "0")).isSome)
              = true <;>
          simp [h1, h2]
      · intro hfalse
        simp [hfalse]
      · intro n htake hn hskip
        have htt : takeTruthy (some (some n)) = true := by
          simpa [takeTruthy] using hn
        by_cases h2 : strTruthy (searchParams.lookup "cursor") = true <;>
          simp [htake, htt, hskip, h2, Option.join]
      · intro n c htake hn hcur hc
        have htt : takeTruthy (some (some n)) = true := by
          simpa [takeTruthy] using hn
        have hst : strTruthy (some c) = true := by
          simpa [strTruthy] using hc
        by_cases h1 : (parseInt ((searchParams.lookup "skip").getD "0")).isSome
            = true <;>
          simp [htake, hcur, htt, hst, h1, Option.join]

/-- C10 witness: with `take=2`, `skip=1`, `cursor=abc` the handler forwards
`take`/`skip` and `take`/`cursor`; with `take` absent it forwards nothing
beyond the where-filters. -/
theorem C10_pagination_forwarding_witness :
    ((FindManyOptions.mk [] (some 2) (some 1) (some "abc")).take = some 2 ∧
      (FindManyOptions.mk [] (some 2) (some 1) (some "abc")).skip
        = parseInt "1") ∧
    (FindManyOptions.mk [] (some 2) (some 1) (some "abc")).cursor
      = some "abc" ∧
    ((FindManyOptions.mk [] none none none).take = none ∧
      (FindManyOptions.mk [] none none none).skip = none ∧
      (FindManyOptions.mk [] none none none).cursor = none) := by
  refine ⟨?_, ?_, ?_⟩
  · exact (C10_pagination_forwarding "user" []
      [("take", "2"), ("skip", "1"), ("cursor", "abc")] _ rfl).2.2.1 2 rfl
      (by decide) rfl
  · exact ((C10_pagination_forwarding "user" []
      [("take", "2"), ("skip", "1"), ("cursor", "abc")] _ rfl).2.2.2 2 "abc"
      rfl (by decide) rfl (by decide)).2
  · exact (C10_pagination_forwarding "user" []
      [("skip", "1"), ("cursor", "abc")] _ rfl).2.1 rfl

/-! ### Unfolding lemmas for the external-view projector -/

theorem rip_nil : removeInternalProperties [] = some [] := by
  rw [removeInternalProperties]

theorem rip_cons_dunder (key : String) (value : JSValue)
    (rest : List (String × JSValue)) (hd : startsWithDunder key = true) :
    removeInternalProperties ((key, value) :: rest)
      = removeInternalProperties rest := by
  cases value <;> (rw [removeInternalProperties]; simp [hd]) <;> simp

theorem rip_cons_null (key : String) (rest : List (String × JSValue))
    (hd : startsWithDunder key = false) :
    removeInternalProperties ((key, JSValue.vNull) :: rest) = none := by
  rw [removeInternalProperties]; simp [hd]

theorem rip_cons_obj (key : String) (fs rest : List (String × JSValue))
    (hd : startsWithDunder key = false) :
    removeInternalProperties ((key, JSValue.vObj fs) :: rest)
      = if isInternalEntity (.vObj fs) = some true then
          match removeInternalProperties fs, removeInternalProperties rest
              with
          | some fs', some rest' => some ((key, .vObj fs') :: rest')
          | _, _ => none
        else (removeInternalProperties rest).map
          fun rest' => (key, JSValue.vObj fs) :: rest' := by
  rw [removeInternalProperties]; simp [hd]

theorem rip_cons_arr (key : String) (es : List JSValue)
    (rest : List (String × JSValue)) (hd : startsWithDunder key = false) :
    removeInternalProperties ((key, JSValue.vArr es) :: rest)
      = match removeInternalFromArray es, removeInternalProperties rest with
        | some es', some rest' => some ((key, .vArr es') :: rest')
        | _, _ => none := by
  rw [removeInternalProperties]; simp [hd]

theorem rip_cons_scalar (key : String) (value : JSValue)
    (rest : List (String × JSValue)) (hd : startsWithDunder key = false)
    (hs : isPlainScalar value = true) :
    removeInternalProperties ((key, value) :: rest)
      = (removeInternalProperties rest).map
          fun rest' => (key, value) :: rest' := by
  cases value <;> simp [isPlainScalar] at hs <;>
    (rw [removeInternalProperties]; simp [hd]) <;> simp

theorem ria_nil : removeInternalFromArray [] = some [] := by
  rw [removeInternalFromArray]

theorem ria_cons_null (rest : List JSValue) :
    removeInternalFromArray (JSValue.vNull :: rest) = none := by
  rw [removeInternalFromArray]

theorem ria_cons_obj (fs : List (String × JSValue)) (rest : List JSValue) :
    removeInternalFromArray (JSValue.vObj fs :: rest)
      = if isInternalEntity (.vObj fs) = some true then
          match removeInternalProperties fs, removeInternalFromArray rest
              with
          | some fs', some rest' => some (.vObj fs' :: rest')
          | _, _ => none
        else (removeInternalFromArray rest).map
          fun rest' => JSValue.vObj fs :: rest' := by
  rw [removeInternalFromArray]

theorem ria_cons_other (e : JSValue) (rest : List JSValue)
    (hnull : e ≠ JSValue.vNull) (hobj : ∀ fs, e ≠ JSValue.vObj fs) :
    removeInternalFromArray (e :: rest)
      = (removeInternalFromArray rest).map fun rest' => e :: rest' := by
  cases e with
  | vNull => exact absurd rfl hnull
  | vObj fs => exact absurd rfl (hobj fs)
  | vStr s => rw [removeInternalFromArray] <;> simp
  | vNum n => rw [removeInternalFromArray] <;> simp
  | vBool b => rw [removeInternalFromArray] <;> simp
  | vDate t => rw [removeInternalFromArray] <;> simp
  | vArr es => rw [removeInternalFromArray] <;> simp

/-! ### Claim theorems for the external-view projector -/

/-- How `removeInternalProperties` transforms one kept field value: an
internal entity is recursively stripped, an array is rebuilt elementwise,
and anything else — including a plain object without `__type` — passes
through unchanged. -/
def StripRel (v v' : JSValue) : Prop :=
  (∃ fs fs', v = JSValue.vObj fs ∧ isInternalEntity v = some true ∧
      removeInternalProperties fs = some fs' ∧ v' = JSValue.vObj fs') ∨
  (∃ es es', v = JSValue.vArr es ∧
      removeInternalFromArray es = some es' ∧ v' = JSValue.vArr es') ∨
  (isInternalEntity v = some false ∧ (∀ es, v ≠ JSValue.vArr es) ∧ v' = v)

/-- How `removeInternalFromArray` transforms one array element: an
internal entity is recursively stripped, every other element — arrays and
plain objects without `__type` included — passes through unchanged. -/
def ElemRel (e e' : JSValue) : Prop :=
  (∃ fs fs', e = JSValue.vObj fs ∧ isInternalEntity e = some true ∧
      removeInternalProperties fs = some fs' ∧ e' = JSValue.vObj fs') ∨
  (isInternalEntity e = some false ∧ e' = e)

theorem isInternalEntity_obj_false (fs : List (String × JSValue))
    (hint : ¬isInternalEntity (.vObj fs) = some true) :
    isInternalEntity (.vObj fs) = some false := by
  cases hie : isInternalEntity (.vObj fs) with
  | none => exact Option.noConfusion hie
  | some b =>
      cases b with
      | true => exact absurd hie hint
      | false => rfl

/-- C9 (amended): on any entity it does not throw on, the projector (i)
keeps exactly the keys not starting with `"__"`, in order; (ii) transforms
each kept field's value by `StripRel` — recursively stripping internal
entities, rebuilding arrays, and passing every other value (nested plain
objects included) through unchanged; (iii) rebuilds arrays elementwise by
`ElemRel`, stripping exactly the elements that are internal entities. -/
theorem C9_remove_internal_properties :
    (∀ fields out, removeInternalProperties fields = some out →
      out.map Prod.fst
        = (fields.filter fun kv => !(startsWithDunder kv.1)).map Prod.fst) ∧
    (∀ fields out, removeInternalProperties fields = some out →
      ∀ k v, (k, v) ∈ fields → startsWithDunder k = false →
        ∃ v', (k, v') ∈ out ∧ StripRel v v') ∧
    (∀ es out, removeInternalFromArray es = some out →
      List.Forall₂ ElemRel es out) := by
  have scalarRel : ∀ (v : JSValue), isPlainScalar v = true → StripRel v v := by
    intro v hs
    refine Or.inr (Or.inr ⟨?_, ?_, rfl⟩)
    · cases v <;> simp [isPlainScalar] at hs <;> rfl
    · cases v <;> simp [isPlainScalar] at hs <;>
        exact fun es h => JSValue.noConfusion h
  refine ⟨?_, ?_, ?_⟩
  · intro fields
    induction fields with
    | nil =>
        intro out h
        rw [rip_nil] at h
        injection h with h
        subst h
        rfl
    | cons kv rest ih =>
        obtain ⟨key, value⟩ := kv
        intro out h
        by_cases hd : startsWithDunder key = true
        · rw [rip_cons_dunder key value rest hd] at h
          rw [List.filter_cons_of_neg (by simp [hd])]
          exact ih out h
        · rw [Bool.not_eq_true] at hd
          rw [List.filter_cons_of_pos (by simp [hd])]
          cases value with
          | vNull =>
              rw [rip_cons_null key rest hd] at h
              exact Option.noConfusion h
          | vObj fs =>
              rw [rip_cons_obj key fs rest hd] at h
              by_cases hint : isInternalEntity (.vObj fs) = some true
              · rw [if_pos hint] at h
                cases hfs : removeInternalProperties fs with
                | none => rw [hfs] at h; exact Option.noConfusion h
                | some fs' =>
                    cases hrest : removeInternalProperties rest with
                    | none =>
                        rw [hfs, hrest] at h
                        exact Option.noConfusion h
                    | some rest' =>
                        rw [hfs, hrest] at h
                        injection h with h
                        subst h
                        simpa using ih rest' hrest
              · rw [if_neg hint] at h
                rcases Option.map_eq_some'.mp h with ⟨rest', hrest, rfl⟩
                simpa using ih rest' hrest
          | vArr es =>
              rw [rip_cons_arr key es rest hd] at h
              cases hes : removeInternalFromArray es with
              | none => rw [hes] at h; exact Option.noConfusion h
              | some es' =>
                  cases hrest : removeInternalProperties rest with
                  | none => rw [hes, hrest] at h; exact Option.noConfusion h
                  | some rest' =>
                      rw [hes, hrest] at h
                      injection h with h
                      subst h
                      simpa using ih rest' hrest
          | vStr s =>
              rw [rip_cons_scalar key (JSValue.vStr s) rest hd rfl] at h
              rcases Option.map_eq_some'.mp h with ⟨rest', hrest, rfl⟩
              simpa using ih rest' hrest
          | vNum n =>
              rw [rip_cons_scalar key (JSValue.vNum n) rest hd rfl] at h
              rcases Option.map_eq_some'.mp h with ⟨rest', hrest, rfl⟩
              simpa using ih rest' hrest
          | vBool b =>
              rw [rip_cons_scalar key (JSValue.vBool b) rest hd rfl] at h
              rcases Option.map_eq_some'.mp h with ⟨rest', hrest, rfl⟩
              simpa using ih rest' hrest
          | vDate t =>
              rw [rip_cons_scalar key (JSValue.vDate t) rest hd rfl] at h
              rcases Option.map_eq_some'.mp h with ⟨rest', hrest, rfl⟩
              simpa using ih rest' hrest
  · intro fields
    induction fields with
    | nil =>
        intro out h k v hmem
        exact absurd hmem (List.not_mem_nil _)
    | cons kv rest ih =>
        obtain ⟨key, value⟩ := kv
        intro out h k v hmem hk
        by_cases hd : startsWithDunder key = true
        · rw [rip_cons_dunder key value rest hd] at h
          rcases List.mem_cons.mp hmem with heq | hmem'
          · injection heq with h1 h2
            subst h1
            rw [hd] at hk
            exact Bool.noConfusion hk
          · exact ih out h k v hmem' hk
        · rw [Bool.not_eq_true] at hd
          cases value with
          | vNull =>
              rw [rip_cons_null key rest hd] at h
              exact Option.noConfusion h
          | vObj fs =>
              rw [rip_cons_obj key fs rest hd] at h
              by_cases hint : isInternalEntity (.vObj fs) = some true
              · rw [if_pos hint] at h
                cases hfs : removeInternalProperties fs with
                | none => rw [hfs] at h; exact Option.noConfusion h
                | some fs' =>
                    cases hrest : removeInternalProperties rest with
                    | none =>
                        rw [hfs, hrest] at h
                        exact Option.noConfusion h
                    | some rest' =>
                        rw [hfs, hrest] at h
                        injection h with h
                        subst h
                        rcases List.mem_cons.mp hmem with heq | hmem'
                        · injection heq with h1 h2
                          subst h1; subst h2
                          exact ⟨.vObj fs', List.mem_cons_self _ _,
                            Or.inl ⟨fs, fs', rfl, hint, hfs, rfl⟩⟩
                        · rcases ih rest' hrest k v hmem' hk
                            with ⟨v', hv', hrel⟩
                          exact ⟨v', List.mem_cons_of_mem _ hv', hrel⟩
              · rw [if_neg hint] at h
                rcases Option.map_eq_some'.mp h with ⟨rest', hrest, rfl⟩
                rcases List.mem_cons.mp hmem with heq | hmem'
                · injection heq with h1 h2
                  subst h1; subst h2
                  exact ⟨.vObj fs, List.mem_cons_self _ _,
                    Or.inr (Or.inr ⟨isInternalEntity_obj_false fs hint,
                      fun es hes => JSValue.noConfusion hes, rfl⟩)⟩
                · rcases ih rest' hrest k v hmem' hk with ⟨v', hv', hrel⟩
                  exact ⟨v', List.mem_cons_of_mem _ hv', hrel⟩
          | vArr es =>
              rw [rip_cons_arr key es rest hd] at h
              cases hes : removeInternalFromArray es with
              | none => rw [hes] at h; exact Option.noConfusion h
              | some es' =>
                  cases hrest : removeInternalProperties rest with
                  | none => rw [hes, hrest] at h; exact Option.noConfusion h
                  | some rest' =>
                      rw [hes, hrest] at h
                      injection h with h
                      subst h
                      rcases List.mem_cons.mp hmem with heq | hmem'
                      · injection heq with h1 h2
                        subst h1; subst h2
                        exact ⟨.vArr es', List.mem_cons_self _ _,
                          Or.inr (Or.inl ⟨es, es', rfl, hes, rfl⟩)⟩
                      · rcases ih rest' hrest k v hmem' hk
                          with ⟨v', hv', hrel⟩
                        exact ⟨v', List.mem_cons_of_mem _ hv', hrel⟩
          | vStr s =>
              rw [rip_cons_scalar key (JSValue.vStr s) rest hd rfl] at h
              rcases Option.map_eq_some'.mp h with ⟨rest', hrest, rfl⟩
              rcases List.mem_cons.mp hmem with heq | hmem'
              · injection heq with h1 h2
                subst h1; subst h2
                exact ⟨.vStr s, List.mem_cons_self _ _, scalarRel _ rfl⟩
              · rcases ih rest' hrest k v hmem' hk with ⟨v', hv', hrel⟩
                exact ⟨v', List.mem_cons_of_mem _ hv', hrel⟩
          | vNum n =>
              rw [rip_cons_scalar key (JSValue.vNum n) rest hd rfl] at h
              rcases Option.map_eq_some'.mp h with ⟨rest', hrest, rfl⟩
              rcases List.mem_cons.mp hmem with heq | hmem'
              · injection heq with h1 h2
                subst h1; subst h2
                exact ⟨.vNum n, List.mem_cons_self _ _, scalarRel _ rfl⟩
              · rcases ih rest' hrest k v hmem' hk with ⟨v', hv', hrel⟩
                exact ⟨v', List.mem_cons_of_mem _ hv', hrel⟩
          | vBool b =>
              rw [rip_cons_scalar key (JSValue.vBool b) rest hd rfl] at h
              rcases Option.map_eq_some'.mp h with ⟨rest', hrest, rfl⟩
              rcases List.mem_cons.mp hmem with heq | hmem'
              · injection heq with h1 h2
                subst h1; subst h2
                exact ⟨.vBool b, List.mem_cons_self _ _, scalarRel _ rfl⟩
              · rcases ih rest' hrest k v hmem' hk with ⟨v', hv', hrel⟩
                exact ⟨v', List.mem_cons_of_mem _ hv', hrel⟩
          | vDate t =>
              rw [rip_cons_scalar key (JSValue.vDate t) rest hd rfl] at h
              rcases Option.map_eq_some'.mp h with ⟨rest', hrest, rfl⟩
              rcases List.mem_cons.mp hmem with heq | hmem'
              · injection heq with h1 h2
                subst h1; subst h2
                exact ⟨.vDate t, List.mem_cons_self _ _, scalarRel _ rfl⟩
              · rcases ih rest' hrest k v hmem' hk with ⟨v', hv', hrel⟩
                exact ⟨v', List.mem_cons_of_mem _ hv', hrel⟩
  · intro es
    induction es with
    | nil =>
        intro out h
        rw [ria_nil] at h
        injection h with h
        subst h
        exact List.Forall₂.nil
    | cons e rest ih =>
        intro out h
        cases e with
        | vNull =>
            rw [ria_cons_null rest] at h
            exact Option.noConfusion h
        | vObj fs =>
            rw [ria_cons_obj fs rest] at h
            by_cases hint : isInternalEntity (.vObj fs) = some true
            · rw [if_pos hint] at h
              cases hfs : removeInternalProperties fs with
              | none => rw [hfs] at h; exact Option.noConfusion h
              | some fs' =>
                  cases hrest : removeInternalFromArray rest with
                  | none => rw [hfs, hrest] at h; exact Option.noConfusion h
                  | some rest' =>
                      rw [hfs, hrest] at h
                      injection h with h
                      subst h
                      exact List.Forall₂.cons
                        (Or.inl ⟨fs, fs', rfl, hint, hfs, rfl⟩)
                        (ih rest' hrest)
            · rw [if_neg hint] at h
              rcases Option.map_eq_some'.mp h with ⟨rest', hrest, rfl⟩
              exact List.Forall₂.cons
                (Or.inr ⟨isInternalEntity_obj_false fs hint, rfl⟩)
                (ih rest' hrest)
        | vStr s =>
            rw [ria_cons_other _ rest (fun hc => JSValue.noConfusion hc)
              (fun fs hc => JSValue.noConfusion hc)] at h
            rcases Option.map_eq_some'.mp h with ⟨rest', hrest, rfl⟩
            exact List.Forall₂.cons (Or.inr ⟨rfl, rfl⟩) (ih rest' hrest)
        | vNum n =>
            rw [ria_cons_other _ rest (fun hc => JSValue.noConfusion hc)
              (fun fs hc => JSValue.noConfusion hc)] at h
            rcases Option.map_eq_some'.mp h with ⟨rest', hrest, rfl⟩
            exact List.Forall₂.cons (Or.inr ⟨rfl, rfl⟩) (ih rest' hrest)
        | vBool b =>
            rw [ria_cons_other _ rest (fun hc => JSValue.noConfusion hc)
              (fun fs hc => JSValue.noConfusion hc)] at h
            rcases Option.map_eq_some'.mp h with ⟨rest', hrest, rfl⟩
            exact List.Forall₂.cons (Or.inr ⟨rfl, rfl⟩) (ih rest' hrest)
        | vDate t =>
            rw [ria_cons_other _ rest (fun hc => JSValue.noConfusion hc)
              (fun fs hc => JSValue.noConfusion hc)] at h
            rcases Option.map_eq_some'.mp h with ⟨rest', hrest, rfl⟩
            exact List.Forall₂.cons (Or.inr ⟨rfl, rfl⟩) (ih rest' hrest)
        | vArr es' =>
            rw [ria_cons_other _ rest (fun hc => JSValue.noConfusion hc)
              (fun fs hc => JSValue.noConfusion hc)] at h
            rcases Option.map_eq_some'.mp h with ⟨rest', hrest, rfl⟩
            exact List.Forall₂.cons (Or.inr ⟨rfl, rfl⟩) (ih rest' hrest)

/-- C9 counterexample: a nested plain object (no `__type`) passes through
`removeInternalProperties` unchanged, so its `"__"`-prefixed key survives
at depth in the result. -/
theorem C9_nested_dunder_key_survives :
    removeInternalProperties
        [("a", JSValue.vObj [("__hidden", JSValue.vNum 1)])]
      = some [("a", JSValue.vObj [("__hidden", JSValue.vNum 1)])] ∧
    startsWithDunder "__hidden" = true := by
  constructor
  · simp [removeInternalProperties, isInternalEntity, startsWithDunder]
  · rfl

/-- C9 witness: a top-level `__type` key is dropped while the other key is
kept, and a plain array element passes through elementwise. -/
theorem C9_remove_internal_properties_witness :
    (([("a", JSValue.vNum 1)] : List (String × JSValue)).map Prod.fst
      = (([("__type", JSValue.vStr "t"), ("a", JSValue.vNum 1)] :
          List (String × JSValue)).filter
            fun kv => !(startsWithDunder kv.1)).map Prod.fst) ∧
    List.Forall₂ ElemRel [JSValue.vNum 7] [JSValue.vNum 7] := by
  constructor
  · exact C9_remove_internal_properties.1
      [("__type", JSValue.vStr "t"), ("a", JSValue.vNum 1)]
      [("a", JSValue.vNum 1)]
      (by simp [removeInternalProperties, isInternalEntity, startsWithDunder])
  · exact C9_remove_internal_properties.2.2 [JSValue.vNum 7] [JSValue.vNum 7]
      (by simp [removeInternalFromArray])

end MswData
